import Mathlib

/-!
Verification development for the in-memory indexed task store of this
repository (the `TaskRepository` class in `src/api/server.js`).

Modelling conventions:
* JS `Map` objects are modelled as association lists in insertion order
  (`Map.set` on a fresh key appends; `Map.delete` removes the entry).
* JS `Set` objects are modelled as insertion-ordered duplicate-free lists
  (`Set.add` appends when the element is absent, `Set.delete` filters).
* `status` and `priority` are modelled by the enumerations used by the
  constructor: the status index map has exactly the keys
  todo / in_progress / completed, and the priority index map has exactly
  low / medium / high, so those two indexes are total functions from the
  enum to their bucket.  Filter values coming from a query stay raw strings.
* ISO-8601 timestamp strings (all produced by `new Date(...).toISOString()`,
  a fixed-width format on which JS string comparison coincides with
  chronological comparison) are modelled as integer instants (milliseconds).
* `uuidv4()` results are modelled as externally supplied identifier
  parameters; their uniqueness becomes an explicit freshness hypothesis.
* The wall clock (`new Date()`) is modelled as an explicit `now` parameter.
-/

namespace TaskRepo

/-- Status enumeration: the keys of `tasksByStatus` in the constructor
(`src/api/server.js` lines 212-216). -/

inductive Status where
  | todo
  | in_progress
  | completed
deriving DecidableEq, Repr

/-- Priority enumeration: the keys of `tasksByPriority` in the constructor
(`src/api/server.js` lines 218-222). -/

inductive Priority where
  | low
  | medium
  | high
deriving DecidableEq, Repr

/-- String form of a status, as stored in a JS task object. -/

def statusStr : Status → String
  | .todo => "todo"
  | .in_progress => "in_progress"
  | .completed => "completed"

/-- String form of a priority, as stored in a JS task object. -/

def priorityStr : Priority → String
  | .low => "low"
  | .medium => "medium"
  | .high => "high"

/-- A stored task record (the object shape built by `create`,
`src/api/server.js` lines 342-357).  `dueDate` is `none` for JS `null`. -/

structure Task where
  id : String
  title : String
  description : String
  status : Status
  priority : Priority
  dueDate : Option Int
  tags : List String
  createdAt : Int
  updatedAt : Int
deriving DecidableEq, Repr

/-- JS `Set.add`: append if absent (insertion order preserved). -/

def setAdd (l : List String) (x : String) : List String :=
  if x ∈ l then l else l ++ [x]

/-- JS `Set.delete`: remove the element, keeping order. -/

def setDel (l : List String) (x : String) : List String :=
  l.filter (fun y => decide (y ≠ x))

/-- JS `Map.get` on an insertion-ordered association list. -/

def alookup {α : Type} : List (String × α) → String → Option α
  | [], _ => none
  | (k, v) :: rest, i => if k = i then some v else alookup rest i

/-- JS `Map.set`: replace the value in place if the key exists, else append. -/

def aset {α : Type} : List (String × α) → String → α → List (String × α)
  | [], k, v => [(k, v)]
  | (k2, v2) :: rest, k, v =>
    if k2 = k then (k, v) :: rest else (k2, v2) :: aset rest k v

/-- JS `Map.delete`: drop the entry for the key. -/

def adel {α : Type} (m : List (String × α)) (k : String) : List (String × α) :=
  m.filter (fun p => decide (p.1 ≠ k))

/-- The bucket a tag maps to, with a missing bucket read as the empty set. -/

def bucketOf (m : List (String × List String)) (g : String) : List String :=
  (alookup m g).getD []

/-- One step of the tag-index insertion in `_addTask`
(`src/api/server.js` lines 290-295): create the bucket when missing,
then add the id to it. -/

def tagAdd (m : List (String × List String)) (g i : String) :
    List (String × List String) :=
  match alookup m g with
  | none => aset m g (setAdd [] i)
  | some b => aset m g (setAdd b i)

/-- The `task.tags.forEach` loop of `_addTask`. -/

def tagAddAll (m : List (String × List String)) (tags : List String)
    (i : String) : List (String × List String) :=
  tags.foldl (fun acc g => tagAdd acc g i) m

/-- One step of the tag-index removal in `_removeTask`
(`src/api/server.js` lines 313-322): delete the id from the bucket and
prune the bucket when it becomes empty. -/

def tagRemove (m : List (String × List String)) (g i : String) :
    List (String × List String) :=
  match alookup m g with
  | none => m
  | some b => if setDel b i = [] then adel m g else aset m g (setDel b i)

/-- The `task.tags.forEach` loop of `_removeTask`. -/

def tagRemoveAll (m : List (String × List String)) (tags : List String)
    (i : String) : List (String × List String) :=
  tags.foldl (fun acc g => tagRemove acc g i) m

/-- The repository state: primary table plus the three indexes
(`src/api/server.js` lines 207-229). -/

structure RepoState where
  tasks : List (String × Task)
  byStatus : Status → List String
  byPriority : Priority → List String
  byTag : List (String × List String)

/-- The state right after the constructor's index setup, before sample
data is inserted (also the state produced by `clear()`). -/

def emptyRepo : RepoState :=
  { tasks := []
    byStatus := fun _ => []
    byPriority := fun _ => []
    byTag := [] }

/-- Lookup in the primary table (`this.tasks.get(id)`). -/

def taskOf (st : RepoState) (i : String) : Option Task :=
  alookup st.tasks i

/-- `_addTask` (`src/api/server.js` lines 279-296). -/

def addTask (st : RepoState) (t : Task) : RepoState :=
  { tasks := aset st.tasks t.id t
    byStatus := fun s => if s = t.status then setAdd (st.byStatus s) t.id else st.byStatus s
    byPriority := fun p => if p = t.priority then setAdd (st.byPriority p) t.id else st.byPriority p
    byTag := tagAddAll st.byTag t.tags t.id }

/-- `_removeTask` (`src/api/server.js` lines 302-323). -/

def removeTask (st : RepoState) (t : Task) : RepoState :=
  { tasks := adel st.tasks t.id
    byStatus := fun s => if s = t.status then setDel (st.byStatus s) t.id else st.byStatus s
    byPriority := fun p => if p = t.priority then setDel (st.byPriority p) t.id else st.byPriority p
    byTag := tagRemoveAll st.byTag t.tags t.id }

/-- Input of `create`.  `none` models an absent (or, for `tags`, a
non-array) property; `description` and `dueDate` with an empty-string JS
value are folded into `none` because `create` normalises them with `||`. -/

structure CreateData where
  title : String
  description : Option String
  status : Option Status
  priority : Option Priority
  dueDate : Option Int
  tags : Option (List String)
deriving DecidableEq, Repr

/-- The task object literal built by `create`
(`src/api/server.js` lines 343-353), with the generated id and the
clock passed explicitly. -/

def mkTask (d : CreateData) (id : String) (now : Int) : Task :=
  { id := id
    title := d.title
    description := d.description.getD ""
    status := d.status.getD .todo
    priority := d.priority.getD .medium
    dueDate := d.dueDate
    tags := d.tags.getD []
    createdAt := now
    updatedAt := now }

/-- `create` (`src/api/server.js` lines 342-357): build the task, index
it, return a copy.  In this value-level model the returned copy is the
task value itself; reference sharing is studied in the alias model below. -/

def create (st : RepoState) (d : CreateData) (id : String) (now : Int) :
    RepoState × Task :=
  let t := mkTask d id now
  (addTask st t, t)

/-- `findById` (`src/api/server.js` lines 364-367). -/

def findById (st : RepoState) (id : String) : Option Task :=
  taskOf st id

/-- Input of `update`: an object whose present properties override the
stored record by spread merge.  `id`, `createdAt` and `updatedAt` may be
present but are overridden after the spread.  `dueDate` present can set
the field to `null` (`some none`). -/

structure UpdateData where
  id : Option String
  title : Option String
  description : Option String
  status : Option Status
  priority : Option Priority
  dueDate : Option (Option Int)
  tags : Option (List String)
  createdAt : Option Int
  updatedAt : Option Int
deriving DecidableEq, Repr

/-- The merged object `{...existingTask, ...updates, id,
createdAt: existingTask.createdAt, updatedAt: new Date().toISOString()}`
(`src/api/server.js` lines 462-468). -/

def mergeTask (ex : Task) (u : UpdateData) (id : String) (now : Int) : Task :=
  { id := id
    title := u.title.getD ex.title
    description := u.description.getD ex.description
    status := u.status.getD ex.status
    priority := u.priority.getD ex.priority
    dueDate := u.dueDate.getD ex.dueDate
    tags := u.tags.getD ex.tags
    createdAt := ex.createdAt
    updatedAt := now }

/-- `update` (`src/api/server.js` lines 456-474): not-found returns the
null sentinel and leaves the state alone, otherwise the indexes are
rewritten via `_updateTask` = `_removeTask` then `_addTask`. -/

def update (st : RepoState) (id : String) (u : UpdateData) (now : Int) :
    RepoState × Option Task :=
  match taskOf st id with
  | none => (st, none)
  | some ex =>
    let t := mergeTask ex u id now
    (addTask (removeTask st ex) t, some t)

/-- `delete` (`src/api/server.js` lines 481-489). -/

def deleteTask (st : RepoState) (id : String) : RepoState × Option Task :=
  match taskOf st id with
  | none => (st, none)
  | some t => (removeTask st t, some t)

/-- A mutating operation on the store, with generated ids and clock
readings made explicit. -/

inductive Op where
  | create (d : CreateData) (id : String) (now : Int)
  | update (id : String) (u : UpdateData) (now : Int)
  | delete (id : String)

/-- State transition of one operation. -/

def applyOp (st : RepoState) : Op → RepoState
  | .create d id now => (create st d id now).1
  | .update id u now => (update st id u now).1
  | .delete id => (deleteTask st id).1

/-- State after a sequence of operations. -/

def applyOps (st : RepoState) : List Op → RepoState
  | [] => st
  | op :: rest => applyOps (applyOp st op) rest

/-- The id handed to a `create` is fresh (this is what `uuidv4()`
guarantees); other operations need nothing. -/

def opFresh (st : RepoState) : Op → Prop
  | .create _ id _ => taskOf st id = none
  | _ => True

/-- Freshness of every generated id along a trace. -/

def FreshAlong (st : RepoState) : List Op → Prop
  | [] => True
  | op :: rest => opFresh st op ∧ FreshAlong (applyOp st op) rest

/-- Query parameters of `findAll`.  `none` models an absent property.
`limit` and `offset` model the result of `parseInt`: `none` stands for an
absent or unparsable (NaN) value. -/

structure Filters where
  status : Option String
  priority : Option String
  tags : Option (List String)
  search : Option String
  overdue : Bool
  sortBy : Option String
  sortOrder : Option String
  limit : Option Int
  offset : Option Int
deriving DecidableEq, Repr

/-- The empty filter object `{}`. -/

def noFilters : Filters :=
  { status := none, priority := none, tags := none, search := none
    overdue := false, sortBy := none, sortOrder := none
    limit := none, offset := none }

/-- Pagination metadata returned by `findAll`. -/

structure Pagination where
  total : Int
  limit : Int
  offset : Int
  hasMore : Bool
deriving DecidableEq, Repr

/-- Result shape of `findAll`. -/

structure FindAllResult where
  tasks : List Task
  pagination : Pagination
deriving DecidableEq, Repr

/-- `new Set(this.tasks.keys())`: the key list deduplicated in insertion
order. -/

def keysOf (m : List (String × Task)) : List String :=
  (m.map Prod.fst).foldl setAdd []

/-- `this.tasksByStatus.get(s)` for a raw query string: the map has
exactly the three enum keys, anything else reads as `undefined`. -/

def statusBucketGet (st : RepoState) (s : String) : Option (List String) :=
  if s = "todo" then some (st.byStatus .todo)
  else if s = "in_progress" then some (st.byStatus .in_progress)
  else if s = "completed" then some (st.byStatus .completed)
  else none

/-- `this.tasksByPriority.get(p)` for a raw query string. -/

def priorityBucketGet (st : RepoState) (p : String) : Option (List String) :=
  if p = "low" then some (st.byPriority .low)
  else if p = "medium" then some (st.byPriority .medium)
  else if p = "high" then some (st.byPriority .high)
  else none

/-- `_intersectSets` (`src/api/server.js` lines 564-575): iterate the
smaller set, probe the larger; the result keeps the smaller set's order. -/

def intersectSets (a b : List String) : List String :=
  if a.length ≤ b.length then a.filter (fun x => decide (x ∈ b))
  else b.filter (fun x => decide (x ∈ a))

/-- The tag-filter loop of `findAll` (`src/api/server.js` lines 391-400):
intersect with each tag bucket in turn; a missing bucket short-circuits
to the empty set. -/

def tagNarrow (st : RepoState) (ids : List String) : List String → List String
  | [] => ids
  | g :: rest =>
    match alookup st.byTag g with
    | some b => tagNarrow st (intersectSets ids b) rest
    | none => []

/-- The status branch of the index-narrowing phase (`src/api/server.js`
lines 378-381).  An empty-string filter value is falsy in JS and skips
the branch; a missing bucket reads as the empty set (`|| new Set()`). -/

def statusNarrow (st : RepoState) (f : Filters) (ids : List String) : List String :=
  match f.status with
  | some s => if s = "" then ids else intersectSets ids ((statusBucketGet st s).getD [])
  | none => ids

/-- The priority branch (`src/api/server.js` lines 383-386). -/

def priorityNarrow (st : RepoState) (f : Filters) (ids : List String) : List String :=
  match f.priority with
  | some p => if p = "" then ids else intersectSets ids ((priorityBucketGet st p).getD [])
  | none => ids

/-- The tags branch (`src/api/server.js` lines 388-401): skipped for an
absent or empty tag list. -/

def tagsNarrowF (st : RepoState) (f : Filters) (ids : List String) : List String :=
  match f.tags with
  | some ts => if ts.length = 0 then ids else tagNarrow st ids ts
  | none => ids

/-- The whole index-narrowing phase of `findAll`
(`src/api/server.js` lines 375-401). -/

def filterStep1 (st : RepoState) (f : Filters) : List String :=
  tagsNarrowF st f (priorityNarrow st f (statusNarrow st f (keysOf st.tasks)))

/-- Materialisation: `Array.from(taskIds).map(id => ({...this.tasks.get(id)}))`. -/

def materialize (st : RepoState) (ids : List String) : List Task :=
  ids.filterMap (taskOf st)

/-- Substring test on character lists: `includes` of JS strings. -/

def listIncl (sub : List Char) : List Char → Bool
  | [] => sub.isEmpty
  | c :: rest => sub.isPrefixOf (c :: rest) || listIncl sub rest

/-- JS `String.prototype.includes`. -/

def strIncludes (s sub : String) : Bool :=
  listIncl sub.data s.data

/-- JS `String.prototype.toLowerCase`, modelled as a per-character ASCII
case fold. -/

def strLower (s : String) : String :=
  ⟨s.data.map Char.toLower⟩

/-- The search predicate body of `findAll` (`src/api/server.js` lines
409-412). -/

def searchHit (t : Task) (term : String) : Bool :=
  strIncludes (strLower t.title) term || strIncludes (strLower t.description) term

/-- The text-search phase (`src/api/server.js` lines 407-413); an empty
search string is falsy and skips the phase. -/

def searchStep (f : Filters) (ts : List Task) : List Task :=
  match f.search with
  | some q => if q = "" then ts else ts.filter (fun t => searchHit t (strLower q))
  | none => ts

/-- The overdue predicate body (`src/api/server.js` lines 418-420):
`task.dueDate && task.dueDate < now && task.status !== 'completed'`. -/

def overdueCheck (t : Task) (now : Int) : Bool :=
  match t.dueDate with
  | some d => decide (d < now) && decide (t.status ≠ Status.completed)
  | none => false

/-- The overdue-filter phase (`src/api/server.js` lines 416-421). -/

def overdueStep (f : Filters) (now : Int) (ts : List Task) : List Task :=
  if f.overdue then ts.filter (fun t => overdueCheck t now) else ts

/-- Value of a task property, as seen by `_compareTasksForSort`.  The
date-valued fields fold in the `new Date(...)` conversion of lines
591-594 and compare as instants; an unknown property reads `undefined`,
modelled (like `null`) by `nul` since the comparator treats both alike. -/

inductive JVal where
  | nul
  | str (s : String)
  | num (n : Int)
  | arr (xs : List String)
deriving DecidableEq, Repr

/-- Property access `task[sortBy]` followed by the date conversion of
`_compareTasksForSort`. -/

def getField (t : Task) (f : String) : JVal :=
  if f = "id" then .str t.id
  else if f = "title" then .str t.title
  else if f = "description" then .str t.description
  else if f = "status" then .str (statusStr t.status)
  else if f = "priority" then .str (priorityStr t.priority)
  else if f = "dueDate" then (match t.dueDate with | some d => .num d | none => .nul)
  else if f = "createdAt" then .num t.createdAt
  else if f = "updatedAt" then .num t.updatedAt
  else if f = "tags" then .arr t.tags
  else .nul

/-- String comparison as a JS-style comparator sign (`localeCompare` is
modelled by code-point order). -/

def strCmp (x y : String) : Int :=
  match compare x y with
  | .lt => -1
  | .eq => 0
  | .gt => 1

/-- The generic `<` of the final branch of `_compareTasksForSort`; for
arrays JS coerces both sides to comma-joined strings. -/

def jvalLt : JVal → JVal → Bool
  | .num x, .num y => decide (x < y)
  | .arr xs, .arr ys =>
    decide (compare (String.intercalate "," xs) (String.intercalate "," ys) = Ordering.lt)
  | _, _ => false

/-- `_compareTasksForSort` (`src/api/server.js` lines 581-605). -/

def cmpTasks (sb so : String) (a b : Task) : Int :=
  match getField a sb, getField b sb with
  | .nul, .nul => 0
  | .nul, _ => if so = "asc" then 1 else -1
  | _, .nul => if so = "asc" then -1 else 1
  | .str x, .str y =>
    let c := strCmp x y
    if so = "asc" then c else -c
  | av, bv =>
    let c : Int := if jvalLt av bv then -1 else if jvalLt bv av then 1 else 0
    if so = "asc" then c else -c

/-- The default comparator `(a, b) => new Date(b.updatedAt) - new Date(a.updatedAt)`. -/

def defaultCmp (a b : Task) : Int :=
  b.updatedAt - a.updatedAt

/-- Stable insertion of one element with respect to a JS comparator:
the new element goes after every element that does not compare strictly
greater. -/

def insertSorted {α : Type} (c : α → α → Int) (x : α) : List α → List α
  | [] => [x]
  | y :: ys => if c y x ≤ 0 then y :: insertSorted c x ys else x :: y :: ys

/-- JS `Array.prototype.sort` with a comparator, modelled as a stable
insertion sort (the JS sort is specified stable). -/

def stableSort {α : Type} (c : α → α → Int) (l : List α) : List α :=
  l.foldl (fun acc x => insertSorted c x acc) []

/-- The sort phase of `findAll` (`src/api/server.js` lines 424-430):
a truthy `sortBy` sorts via `_compareTasksForSort` with `sortOrder`
defaulting to asc, otherwise by `updatedAt` descending. -/

def sortStep (f : Filters) (ts : List Task) : List Task :=
  match f.sortBy with
  | some sb =>
    if sb = "" then stableSort defaultCmp ts
    else stableSort (cmpTasks sb (f.sortOrder.getD "asc")) ts
  | none => stableSort defaultCmp ts

/-- The filtered task list before sorting. -/

def preSortTasks (st : RepoState) (f : Filters) (now : Int) : List Task :=
  overdueStep f now (searchStep f (materialize st (filterStep1 st f)))

/-- The filtered, sorted task list `findAll` paginates over. -/

def findAllSorted (st : RepoState) (f : Filters) (now : Int) : List Task :=
  sortStep f (preSortTasks st f now)

/-- JS `Array.prototype.slice(start, end)` with negative-index handling. -/

def jsSlice (l : List Task) (s e : Int) : List Task :=
  let len : Int := l.length
  let s2 := if s < 0 then max (len + s) 0 else min s len
  let e2 := if e < 0 then max (len + e) 0 else min e len
  (l.drop s2.toNat).take (e2 - s2).toNat

/-- `findAll` (`src/api/server.js` lines 374-448).  The effective limit
is `Math.min(parseInt(filters.limit) || 50, 100)` (note: no lower
clamp), the effective offset `Math.max(parseInt(filters.offset) || 0, 0)`. -/

def findAll (st : RepoState) (f : Filters) (now : Int) : FindAllResult :=
  let tasks := findAllSorted st f now
  let limit : Int := match f.limit with | none => 50 | some v => if v = 0 then 50 else min v 100
  let offset : Int := match f.offset with | none => 0 | some v => max v 0
  let total : Int := tasks.length
  { tasks := jsSlice tasks offset (offset + limit)
    pagination :=
      { total := total
        limit := limit
        offset := offset
        hasMore := decide (offset + limit < total) } }

/-- The local calendar day of an instant under a fixed zone offset
(milliseconds): two instants have equal `toDateString()` results exactly
when they fall in the same local day. -/

def localDay (off t : Int) : Int :=
  (t + off).fdiv 86400000

/-- The `completedToday` test of the `getStats` loop
(`src/api/server.js` lines 528-533): status completed and `updatedAt`
on the same local calendar day as `new Date()`. -/

def completedTodayCheck (off now : Int) (t : Task) : Bool :=
  decide (t.status = Status.completed) && decide (localDay off t.updatedAt = localDay off now)

/-- The counting loop of `getStats` (`src/api/server.js` lines 521-534),
threading the overdue and completedToday accumulators. -/

def statsLoop (now off : Int) : List (String × Task) → Nat → Nat → Nat × Nat
  | [], ov, ct => (ov, ct)
  | (_, t) :: rest, ov, ct =>
    let ov2 := if overdueCheck t now then ov + 1 else ov
    let ct2 := if completedTodayCheck off now t then ct + 1 else ct
    statsLoop now off rest ov2 ct2

/-- Comparator of `_getPopularTags`: `(a, b) => b.count - a.count`. -/

def popularCmp (a b : String × Nat) : Int :=
  (b.2 : Int) - (a.2 : Int)

/-- `_getPopularTags` (`src/api/server.js` lines 611-618) with the
default limit 5. -/

def popularTags (m : List (String × List String)) : List (String × Nat) :=
  (stableSort popularCmp (m.map (fun p => (p.1, p.2.length)))).take 5

/-- Result shape of `getStats`. -/

structure Stats where
  total : Nat
  statusTodo : Nat
  statusInProgress : Nat
  statusCompleted : Nat
  prioLow : Nat
  prioMedium : Nat
  prioHigh : Nat
  tagsTotal : Nat
  popular : List (String × Nat)
  overdue : Nat
  completedToday : Nat
deriving DecidableEq, Repr

/-- `getStats` (`src/api/server.js` lines 495-537).  `now` is the clock
reading and `off` the zone offset used by `toDateString()`; the code
takes the offset from the process environment, so it appears here as an
explicit parameter. -/

def getStats (st : RepoState) (now off : Int) : Stats :=
  let counts := statsLoop now off st.tasks 0 0
  { total := st.tasks.length
    statusTodo := (st.byStatus .todo).length
    statusInProgress := (st.byStatus .in_progress).length
    statusCompleted := (st.byStatus .completed).length
    prioLow := (st.byPriority .low).length
    prioMedium := (st.byPriority .medium).length
    prioHigh := (st.byPriority .high).length
    tagsTotal := st.byTag.length
    popular := popularTags st.byTag
    overdue := counts.1
    completedToday := counts.2 }

/-- First sample task of `initializeSampleData`
(`src/api/server.js` lines 237-247). -/

def sampleTask1 (now : Int) (id : String) : Task :=
  { id := id
    title := "Set up project infrastructure"
    description := "Initialize the project with proper folder structure and dependencies"
    status := .completed
    priority := .high
    dueDate := some (now - 2 * 86400000)
    tags := ["setup", "infrastructure"]
    createdAt := now - 3 * 86400000
    updatedAt := now - 2 * 86400000 }

/-- Second sample task (`src/api/server.js` lines 248-258). -/

def sampleTask2 (now : Int) (id : String) : Task :=
  { id := id
    title := "Implement API endpoints"
    description := "Create RESTful API endpoints for task management"
    status := .in_progress
    priority := .high
    dueDate := some (now + 86400000)
    tags := ["api", "backend"]
    createdAt := now - 86400000
    updatedAt := now }

/-- Third sample task (`src/api/server.js` lines 259-269). -/

def sampleTask3 (now : Int) (id : String) : Task :=
  { id := id
    title := "Write comprehensive tests"
    description := "Add unit and integration tests for all components"
    status := .todo
    priority := .medium
    dueDate := some (now + 3 * 86400000)
    tags := ["testing", "quality"]
    createdAt := now
    updatedAt := now }

/-- The state a freshly constructed repository is in: the constructor
runs `initializeSampleData`, which `_addTask`s the three sample records
(`src/api/server.js` lines 227-228 and 235-273). -/

def freshRepo (now : Int) (id1 id2 id3 : String) : RepoState :=
  addTask (addTask (addTask emptyRepo (sampleTask1 now id1)) (sampleTask2 now id2)) (sampleTask3 now id3)

/-- Concrete create input used by witnesses and counterexamples. -/

def dA : CreateData :=
  { title := "alpha"
    description := some "first task"
    status := some .todo
    priority := some .high
    dueDate := some 100
    tags := some ["x", "y"] }

/-- Second concrete create input. -/

def dB : CreateData :=
  { title := "beta"
    description := none
    status := some .completed
    priority := none
    dueDate := none
    tags := some ["x"] }

/-- A one-task state: `dA` created with id "a" at time 10. -/

def stA : RepoState := (create emptyRepo dA "a" 10).1

/-- A two-task state: `dA` at time 10, then `dB` with id "b" at time 20. -/

def stAB : RepoState := (create stA dB "b" 20).1

/-- The index-consistency invariant of the store: each status, priority
and tag bucket holds exactly the ids of the live records with that
value, no tag bucket is empty, and the primary table maps each id to a
record carrying that id. -/
def Inv (st : RepoState) : Prop :=
  (∀ s i, i ∈ st.byStatus s ↔ ∃ t, taskOf st i = some t ∧ t.status = s) ∧
  (∀ p i, i ∈ st.byPriority p ↔ ∃ t, taskOf st i = some t ∧ t.priority = p) ∧
  (∀ g i, i ∈ bucketOf st.byTag g ↔ ∃ t, taskOf st i = some t ∧ g ∈ t.tags) ∧
  (∀ e ∈ st.byTag, e.2 ≠ []) ∧
  (∀ i t, taskOf st i = some t → t.id = i)

/-- The bucket-exactness statement of the spec: every status bucket,
priority bucket and tag bucket holds exactly the ids of the live records
currently carrying that value (hence never the id of a deleted or
unknown record), and no empty tag bucket remains in the tag index. -/
def BucketsExact (st : RepoState) : Prop :=
  (∀ s i, i ∈ st.byStatus s ↔ ∃ t, taskOf st i = some t ∧ t.status = s) ∧
  (∀ p i, i ∈ st.byPriority p ↔ ∃ t, taskOf st i = some t ∧ t.priority = p) ∧
  (∀ g i, i ∈ bucketOf st.byTag g ↔ ∃ t, taskOf st i = some t ∧ g ∈ t.tags) ∧
  (∀ e ∈ st.byTag, e.2 ≠ [])

/-- An option-valued filter component is active when it holds a truthy
(non-empty) string; this is the JS truthiness test the query code uses. -/
def activeStr (o : Option String) : Option String :=
  match o with
  | some s => if s = "" then none else some s
  | none => none

/-- Claim-side status predicate: when a status filter is active the
record's status equals it. -/
def StatusOK (f : Filters) (t : Task) : Prop :=
  ∀ s, activeStr f.status = some s → statusStr t.status = s

/-- Claim-side priority predicate. -/
def PriorityOK (f : Filters) (t : Task) : Prop :=
  ∀ p, activeStr f.priority = some p → priorityStr t.priority = p

/-- Claim-side tag predicate: the record carries every requested tag. -/
def TagsOK (f : Filters) (t : Task) : Prop :=
  ∀ ts, f.tags = some ts → ∀ g ∈ ts, g ∈ t.tags

/-- Claim-side search predicate: case-insensitive substring match
against title or description. -/
def SearchOK (f : Filters) (t : Task) : Prop :=
  ∀ q, activeStr f.search = some q → searchHit t (strLower q) = true

/-- Claim-side overdue predicate: dueDate set, earlier than now, status
not completed. -/
def OverdueOK (f : Filters) (now : Int) (t : Task) : Prop :=
  f.overdue = true → ∃ d, t.dueDate = some d ∧ d < now ∧ t.status ≠ Status.completed

/-- A record satisfies every predicate of the filter object. -/
def Satisfies (f : Filters) (now : Int) (t : Task) : Prop :=
  StatusOK f t ∧ PriorityOK f t ∧ TagsOK f t ∧ SearchOK f t ∧ OverdueOK f now t

/-- The nine property names a task object actually has. -/
def sortFields : List String :=
  ["id", "title", "description", "status", "priority", "dueDate",
   "createdAt", "updatedAt", "tags"]

/-- The UTC calendar day of an instant (milliseconds). -/
def utcDay (t : Int) : Int := t.fdiv 86400000

/-- A concrete update payload used by witnesses. -/
def uEx : UpdateData :=
  { id := some "zzz", title := some "alpha2", description := none,
    status := some .in_progress, priority := none,
    dueDate := some (some 99), tags := some ["y", "z"],
    createdAt := some 123, updatedAt := some 777 }

/-- A concrete operation trace: two creates, an update, a delete. -/
def opsEx : List Op :=
  [Op.create dA "a" 10, Op.create dB "b" 20, Op.update "a" uEx 30, Op.delete "b"]

/-- A concrete filter used by the C4 witness. -/
def fEx : Filters := { noFilters with status := some "todo", tags := some ["x"] }

/-- A query that filters by tags only. -/
def tagFilter (ts : List String) : Filters := { noFilters with tags := some ts }

/-- A query with a negative requested limit. -/
def fNegLimit : Filters := { noFilters with limit := some (-5) }

/-- A query with an unknown sort field. -/
def fBogusSort : Filters := { noFilters with sortBy := some "bogus" }

/-- A store holding one record completed at 01:00 UTC on epoch day 0. -/
def stC : RepoState := (create emptyRepo dB "c" 3600000).1

/-- A query with an unknown status value and a negative limit. -/
def fBogusStatus : Filters :=
  { noFilters with status := some "bogus", limit := some (-5) }

namespace AliasModel

/-- A JS task object as held on the heap.  Primitive (string / number)
properties are copied by value by an object spread, so they sit directly
in the structure; `tags` is the only nested mutable value (an array) and
is held as a reference into an explicit array heap.  Representative
primitive fields suffice for the aliasing analysis. -/
structure TaskObj where
  id : String
  title : String
  tags : Nat
  createdAt : Int
  updatedAt : Int
deriving DecidableEq, Repr

/-- The array heap: reference r denotes the r-th allocated array. -/
abbrev Heap := List (List String)

/-- Dereference an array. -/
def readArr (h : Heap) (r : Nat) : List String := h.getD r []

/-- Overwrite an array in place. -/
def writeArr (h : Heap) (r : Nat) (v : List String) : Heap := h.set r v

/-- Allocate a fresh array with the given contents. -/
def allocArr (h : Heap) (v : List String) : Heap × Nat := (h ++ [v], h.length)

/-- The object spread `{...task}`: copies every primitive field by value
and copies the `tags` REFERENCE, so the copy and the original share one
array. -/
def spreadCopy (t : TaskObj) : TaskObj := t

/-- Store at reference level: array heap plus the primary task table. -/
structure Store where
  heap : Heap
  tasks : List (String × TaskObj)
deriving DecidableEq, Repr

/-- `create` at reference level (`src/api/server.js` lines 342-357):
`[...taskData.tags]` allocates a fresh array holding a copy of the
caller's array contents; the stored task holds the new reference; the
returned value is the shallow spread `{...task}`, which holds that same
reference. -/
def createA (st : Store) (title : String) (tagsArg : Nat) (id : String)
    (now : Int) : Store × TaskObj :=
  let copied := allocArr st.heap (readArr st.heap tagsArg)
  let t : TaskObj :=
    { id := id, title := title, tags := copied.2, createdAt := now, updatedAt := now }
  ({ heap := copied.1, tasks := aset st.tasks id t }, spreadCopy t)

/-- `findById` at reference level (`src/api/server.js` lines 364-367):
returns `{...task}` for a present record. -/
def findByIdA (st : Store) (id : String) : Option TaskObj :=
  (alookup st.tasks id).map spreadCopy

/-- A caller mutating an array it holds a reference to: `arr.push(x)`. -/
def pushArr (st : Store) (r : Nat) (x : String) : Store :=
  { st with heap := writeArr st.heap r (readArr st.heap r ++ [x]) }

/-- Initial scene: the caller owns array 0 with contents ["a"], store empty. -/
def st0 : Store := { heap := [["a"]], tasks := [] }

/-- The create call of the failing input. -/
def c2run : Store × TaskObj := createA st0 "t" 0 "id1" 5

/-- Store after the create. -/
def c2st1 : Store := c2run.1

/-- The record the caller received back from create. -/
def c2ret : TaskObj := c2run.2

/-- The caller pushes "b" onto the tags array of the record it received. -/
def c2st2 : Store := pushArr c2st1 c2ret.tags "b"

end AliasModel

theorem mem_setAdd {l : List String} {x i : String} :
    i ∈ setAdd l x ↔ i ∈ l ∨ i = x := by
  unfold setAdd
  by_cases h : x ∈ l
  · simp only [if_pos h]
    constructor
    · exact Or.inl
    · rintro (hi | rfl)
      · exact hi
      · exact h
  · simp [if_neg h]

theorem setAdd_ne_nil (l : List String) (x : String) : setAdd l x ≠ [] := by
  unfold setAdd
  by_cases h : x ∈ l
  · simp only [if_pos h]
    rintro rfl
    exact absurd h (List.not_mem_nil x)
  · simp [if_neg h]

theorem mem_setDel {l : List String} {x i : String} :
    i ∈ setDel l x ↔ i ∈ l ∧ i ≠ x := by
  simp [setDel, List.mem_filter]

theorem setDel_idem (l : List String) (x : String) :
    setDel (setDel l x) x = setDel l x := by
  simp [setDel, List.filter_filter]

theorem setAdd_mem_idem {l : List String} {x : String} (h : x ∈ l) :
    setAdd l x = l := by
  simp [setAdd, if_pos h]

theorem alookup_aset_self {α : Type} (m : List (String × α)) (k : String)
    (v : α) : alookup (aset m k v) k = some v := by
  induction m with
  | nil => simp [aset, alookup]
  | cons p rest ih =>
    obtain ⟨k2, v2⟩ := p
    by_cases h2 : k2 = k
    · subst h2
      simp [aset, alookup]
    · simp only [aset, if_neg h2, alookup, if_neg h2]
      exact ih

theorem alookup_aset_ne {α : Type} (m : List (String × α)) (k : String)
    (v : α) {i : String} (h : i ≠ k) :
    alookup (aset m k v) i = alookup m i := by
  induction m with
  | nil => simp [aset, alookup, if_neg (Ne.symm h)]
  | cons p rest ih =>
    obtain ⟨k2, v2⟩ := p
    by_cases h2 : k2 = k
    · subst h2
      simp [aset, alookup, if_neg (Ne.symm h)]
    · simp only [aset, if_neg h2, alookup]
      by_cases h3 : k2 = i
      · simp [h3]
      · simp only [if_neg h3]
        exact ih

theorem alookup_adel_self {α : Type} (m : List (String × α)) (k : String) :
    alookup (adel m k) k = none := by
  induction m with
  | nil => simp [adel, alookup]
  | cons p rest ih =>
    obtain ⟨k2, v2⟩ := p
    by_cases h2 : k2 = k
    · subst h2
      simpa [adel, List.filter_cons] using ih
    · simp only [adel, List.filter_cons, decide_eq_true_eq, ne_eq,
        if_pos h2, alookup, if_neg h2]
      exact ih

theorem alookup_adel_ne {α : Type} (m : List (String × α)) (k : String)
    {i : String} (h : i ≠ k) :
    alookup (adel m k) i = alookup m i := by
  induction m with
  | nil => simp [adel, alookup]
  | cons p rest ih =>
    obtain ⟨k2, v2⟩ := p
    by_cases h2 : k2 = k
    · subst h2
      simp only [adel, List.filter_cons, ne_eq, not_true_eq_false,
        decide_eq_true_eq, if_false, alookup, if_neg (Ne.symm h)]
      simpa [adel] using ih
    · simp only [adel, List.filter_cons, decide_eq_true_eq, ne_eq,
        if_pos h2, alookup]
      by_cases h3 : k2 = i
      · simp [h3]
      · simp only [if_neg h3]
        simpa [adel] using ih

theorem mem_aset {α : Type} {m : List (String × α)} {k : String} {v : α}
    {e : String × α} (h : e ∈ aset m k v) : e = (k, v) ∨ e ∈ m := by
  induction m with
  | nil =>
    simp only [aset, List.mem_singleton] at h
    exact Or.inl h
  | cons p rest ih =>
    obtain ⟨k2, v2⟩ := p
    by_cases h2 : k2 = k
    · rw [show aset ((k2, v2) :: rest) k v = (k, v) :: rest by simp [aset, h2]] at h
      rcases List.mem_cons.mp h with h3 | h3
      · exact Or.inl h3
      · exact Or.inr (List.mem_cons_of_mem _ h3)
    · rw [show aset ((k2, v2) :: rest) k v = (k2, v2) :: aset rest k v by
        simp [aset, h2]] at h
      rcases List.mem_cons.mp h with h3 | h3
      · refine Or.inr ?_
        rw [h3]
        exact List.mem_cons_self _ _
      · rcases ih h3 with h4 | h4
        · exact Or.inl h4
        · exact Or.inr (List.mem_cons_of_mem _ h4)

theorem mem_adel {α : Type} {m : List (String × α)} {k : String}
    {e : String × α} (h : e ∈ adel m k) : e ∈ m :=
  List.mem_of_mem_filter h

theorem taskOf_addTask (st : RepoState) (t : Task) (i : String) :
    taskOf (addTask st t) i = if i = t.id then some t else taskOf st i := by
  by_cases h : i = t.id
  · subst h
    simp [taskOf, addTask, alookup_aset_self]
  · simp [taskOf, addTask, alookup_aset_ne _ _ _ h, if_neg h]

theorem taskOf_removeTask (st : RepoState) (t : Task) (i : String) :
    taskOf (removeTask st t) i = if i = t.id then none else taskOf st i := by
  by_cases h : i = t.id
  · subst h
    simp [taskOf, removeTask, alookup_adel_self]
  · simp [taskOf, removeTask, alookup_adel_ne _ _ h, if_neg h]

theorem bucketOf_tagAdd (m : List (String × List String)) (g i g2 : String) :
    bucketOf (tagAdd m g i) g2 =
      if g2 = g then setAdd (bucketOf m g) i else bucketOf m g2 := by
  unfold tagAdd
  cases hb : alookup m g with
  | none =>
    by_cases h : g2 = g
    · subst h
      simp [bucketOf, alookup_aset_self, hb]
    · simp [bucketOf, alookup_aset_ne _ _ _ h, if_neg h]
  | some b =>
    by_cases h : g2 = g
    · subst h
      simp [bucketOf, alookup_aset_self, hb]
    · simp [bucketOf, alookup_aset_ne _ _ _ h, if_neg h]

theorem bucketOf_tagRemove (m : List (String × List String)) (g i g2 : String) :
    bucketOf (tagRemove m g i) g2 =
      if g2 = g then setDel (bucketOf m g) i else bucketOf m g2 := by
  unfold tagRemove
  cases hb : alookup m g with
  | none =>
    by_cases h : g2 = g
    · subst h
      simp [bucketOf, hb, setDel]
    · simp [if_neg h]
  | some b =>
    by_cases h : g2 = g
    · subst h
      by_cases h2 : setDel b i = []
      · simp [if_pos h2, bucketOf, alookup_adel_self, hb, h2]
      · simp [if_neg h2, bucketOf, alookup_aset_self, hb]
    · by_cases h2 : setDel b i = []
      · simp [if_pos h2, bucketOf, alookup_adel_ne _ _ h, if_neg h]
      · simp [if_neg h2, bucketOf, alookup_aset_ne _ _ _ h, if_neg h]

theorem setAdd_absorb (l : List String) (x : String) :
    setAdd (setAdd l x) x = setAdd l x :=
  setAdd_mem_idem (mem_setAdd.mpr (Or.inr rfl))

theorem bucketOf_tagAddAll (m : List (String × List String))
    (tags : List String) (i g : String) :
    bucketOf (tagAddAll m tags i) g =
      if g ∈ tags then setAdd (bucketOf m g) i else bucketOf m g := by
  induction tags generalizing m with
  | nil => simp [tagAddAll]
  | cons g0 rest ih =>
    have hstep : tagAddAll m (g0 :: rest) i = tagAddAll (tagAdd m g0 i) rest i := rfl
    rw [hstep, ih, bucketOf_tagAdd]
    by_cases hr : g ∈ rest
    · by_cases hg0 : g = g0
      · subst hg0
        simp [hr, setAdd_absorb]
      · simp [hr, hg0]
    · by_cases hg0 : g = g0
      · subst hg0
        simp [hr]
      · simp [hr, hg0]

theorem bucketOf_tagRemoveAll (m : List (String × List String))
    (tags : List String) (i g : String) :
    bucketOf (tagRemoveAll m tags i) g =
      if g ∈ tags then setDel (bucketOf m g) i else bucketOf m g := by
  induction tags generalizing m with
  | nil => simp [tagRemoveAll]
  | cons g0 rest ih =>
    have hstep : tagRemoveAll m (g0 :: rest) i = tagRemoveAll (tagRemove m g0 i) rest i := rfl
    rw [hstep, ih, bucketOf_tagRemove]
    by_cases hr : g ∈ rest
    · by_cases hg0 : g = g0
      · subst hg0
        simp [hr, setDel_idem]
      · simp [hr, hg0]
    · by_cases hg0 : g = g0
      · subst hg0
        simp [hr]
      · simp [hr, hg0]

theorem tagAdd_nonempty {m : List (String × List String)} {g i : String}
    (h : ∀ e ∈ m, e.2 ≠ []) : ∀ e ∈ tagAdd m g i, e.2 ≠ [] := by
  intro e he
  cases hb : alookup m g with
  | none =>
    rw [show tagAdd m g i = aset m g (setAdd [] i) by simp [tagAdd, hb]] at he
    rcases mem_aset he with h2 | hm
    · rw [h2]
      exact setAdd_ne_nil [] i
    · exact h e hm
  | some b =>
    rw [show tagAdd m g i = aset m g (setAdd b i) by simp [tagAdd, hb]] at he
    rcases mem_aset he with h2 | hm
    · rw [h2]
      exact setAdd_ne_nil b i
    · exact h e hm

theorem tagRemove_nonempty {m : List (String × List String)} {g i : String}
    (h : ∀ e ∈ m, e.2 ≠ []) : ∀ e ∈ tagRemove m g i, e.2 ≠ [] := by
  intro e he
  cases hb : alookup m g with
  | none =>
    rw [show tagRemove m g i = m by simp [tagRemove, hb]] at he
    exact h e he
  | some b =>
    by_cases h2 : setDel b i = []
    · rw [show tagRemove m g i = adel m g by simp [tagRemove, hb, h2]] at he
      exact h e (mem_adel he)
    · rw [show tagRemove m g i = aset m g (setDel b i) by
        simp [tagRemove, hb, h2]] at he
      rcases mem_aset he with h3 | hm
      · rw [h3]
        exact h2
      · exact h e hm

theorem tagAddAll_nonempty {m : List (String × List String)}
    {tags : List String} {i : String} (h : ∀ e ∈ m, e.2 ≠ []) :
    ∀ e ∈ tagAddAll m tags i, e.2 ≠ [] := by
  induction tags generalizing m with
  | nil => exact h
  | cons g0 rest ih => exact ih (tagAdd_nonempty h)

theorem tagRemoveAll_nonempty {m : List (String × List String)}
    {tags : List String} {i : String} (h : ∀ e ∈ m, e.2 ≠ []) :
    ∀ e ∈ tagRemoveAll m tags i, e.2 ≠ [] := by
  induction tags generalizing m with
  | nil => exact h
  | cons g0 rest ih => exact ih (tagRemove_nonempty h)

theorem mem_byStatus_addTask (st : RepoState) (t : Task) (s : Status) (i : String) :
    i ∈ (addTask st t).byStatus s ↔
      i ∈ st.byStatus s ∨ (i = t.id ∧ s = t.status) := by
  by_cases hss : s = t.status
  · subst hss
    simp only [addTask]
    simp [mem_setAdd]
  · simp [addTask, if_neg hss, hss]

theorem mem_byStatus_removeTask (st : RepoState) (t : Task) (s : Status) (i : String) :
    i ∈ (removeTask st t).byStatus s ↔
      i ∈ st.byStatus s ∧ ¬(i = t.id ∧ s = t.status) := by
  by_cases hss : s = t.status
  · subst hss
    simp only [removeTask]
    simp [mem_setDel]
  · simp [removeTask, if_neg hss, hss]

theorem mem_byPriority_addTask (st : RepoState) (t : Task) (p : Priority) (i : String) :
    i ∈ (addTask st t).byPriority p ↔
      i ∈ st.byPriority p ∨ (i = t.id ∧ p = t.priority) := by
  by_cases hpp : p = t.priority
  · subst hpp
    simp only [addTask]
    simp [mem_setAdd]
  · simp [addTask, if_neg hpp, hpp]

theorem mem_byPriority_removeTask (st : RepoState) (t : Task) (p : Priority) (i : String) :
    i ∈ (removeTask st t).byPriority p ↔
      i ∈ st.byPriority p ∧ ¬(i = t.id ∧ p = t.priority) := by
  by_cases hpp : p = t.priority
  · subst hpp
    simp only [removeTask]
    simp [mem_setDel]
  · simp [removeTask, if_neg hpp, hpp]

theorem mem_byTag_addTask (st : RepoState) (t : Task) (g : String) (i : String) :
    i ∈ bucketOf (addTask st t).byTag g ↔
      i ∈ bucketOf st.byTag g ∨ (i = t.id ∧ g ∈ t.tags) := by
  have : (addTask st t).byTag = tagAddAll st.byTag t.tags t.id := rfl
  rw [this, bucketOf_tagAddAll]
  by_cases hg : g ∈ t.tags
  · simp only [if_pos hg, mem_setAdd]
    tauto
  · simp [if_neg hg, hg]

theorem mem_byTag_removeTask (st : RepoState) (t : Task) (g : String) (i : String) :
    i ∈ bucketOf (removeTask st t).byTag g ↔
      i ∈ bucketOf st.byTag g ∧ ¬(i = t.id ∧ g ∈ t.tags) := by
  have : (removeTask st t).byTag = tagRemoveAll st.byTag t.tags t.id := rfl
  rw [this, bucketOf_tagRemoveAll]
  by_cases hg : g ∈ t.tags
  · simp only [if_pos hg, mem_setDel]
    tauto
  · simp [if_neg hg, hg]

theorem Inv_addTask {st : RepoState} {t : Task} (h : Inv st)
    (hf : taskOf st t.id = none) : Inv (addTask st t) := by
  obtain ⟨hs, hp, hg, hpr, hk⟩ := h
  refine ⟨?_, ?_, ?_, ?_, ?_⟩
  · intro s i
    rw [mem_byStatus_addTask]
    constructor
    · rintro (hmem | ⟨rfl, rfl⟩)
      · obtain ⟨t2, ht2, hst⟩ := (hs s i).mp hmem
        refine ⟨t2, ?_, hst⟩
        rw [taskOf_addTask]
        by_cases hi : i = t.id
        · subst hi
          rw [hf] at ht2
          exact absurd ht2 (by simp)
        · rw [if_neg hi]
          exact ht2
      · exact ⟨t, by rw [taskOf_addTask, if_pos rfl], rfl⟩
    · rintro ⟨t2, ht2, hst⟩
      rw [taskOf_addTask] at ht2
      by_cases hi : i = t.id
      · rw [if_pos hi] at ht2
        obtain rfl := Option.some.inj ht2
        exact Or.inr ⟨hi, hst.symm⟩
      · rw [if_neg hi] at ht2
        exact Or.inl ((hs s i).mpr ⟨t2, ht2, hst⟩)
  · intro p i
    rw [mem_byPriority_addTask]
    constructor
    · rintro (hmem | ⟨rfl, rfl⟩)
      · obtain ⟨t2, ht2, hst⟩ := (hp p i).mp hmem
        refine ⟨t2, ?_, hst⟩
        rw [taskOf_addTask]
        by_cases hi : i = t.id
        · subst hi
          rw [hf] at ht2
          exact absurd ht2 (by simp)
        · rw [if_neg hi]
          exact ht2
      · exact ⟨t, by rw [taskOf_addTask, if_pos rfl], rfl⟩
    · rintro ⟨t2, ht2, hst⟩
      rw [taskOf_addTask] at ht2
      by_cases hi : i = t.id
      · rw [if_pos hi] at ht2
        obtain rfl := Option.some.inj ht2
        exact Or.inr ⟨hi, hst.symm⟩
      · rw [if_neg hi] at ht2
        exact Or.inl ((hp p i).mpr ⟨t2, ht2, hst⟩)
  · intro g i
    rw [mem_byTag_addTask]
    constructor
    · rintro (hmem | ⟨rfl, htg⟩)
      · obtain ⟨t2, ht2, hst⟩ := (hg g i).mp hmem
        refine ⟨t2, ?_, hst⟩
        rw [taskOf_addTask]
        by_cases hi : i = t.id
        · subst hi
          rw [hf] at ht2
          exact absurd ht2 (by simp)
        · rw [if_neg hi]
          exact ht2
      · exact ⟨t, by rw [taskOf_addTask, if_pos rfl], htg⟩
    · rintro ⟨t2, ht2, hst⟩
      rw [taskOf_addTask] at ht2
      by_cases hi : i = t.id
      · rw [if_pos hi] at ht2
        obtain rfl := Option.some.inj ht2
        exact Or.inr ⟨hi, hst⟩
      · rw [if_neg hi] at ht2
        exact Or.inl ((hg g i).mpr ⟨t2, ht2, hst⟩)
  · exact tagAddAll_nonempty hpr
  · intro i t2 ht2
    rw [taskOf_addTask] at ht2
    by_cases hi : i = t.id
    · rw [if_pos hi] at ht2
      obtain rfl := Option.some.inj ht2
      exact hi.symm
    · rw [if_neg hi] at ht2
      exact hk i t2 ht2

theorem Inv_removeTask {st : RepoState} {t : Task} (h : Inv st)
    (ht : taskOf st t.id = some t) : Inv (removeTask st t) := by
  obtain ⟨hs, hp, hg, hpr, hk⟩ := h
  refine ⟨?_, ?_, ?_, ?_, ?_⟩
  · intro s i
    rw [mem_byStatus_removeTask]
    constructor
    · rintro ⟨hmem, hnot⟩
      obtain ⟨t2, ht2, hst⟩ := (hs s i).mp hmem
      refine ⟨t2, ?_, hst⟩
      rw [taskOf_removeTask]
      by_cases hi : i = t.id
      · exfalso
        subst hi
        rw [ht] at ht2
        obtain rfl := Option.some.inj ht2
        exact hnot ⟨rfl, hst.symm⟩
      · rw [if_neg hi]
        exact ht2
    · rintro ⟨t2, ht2, hst⟩
      rw [taskOf_removeTask] at ht2
      by_cases hi : i = t.id
      · rw [if_pos hi] at ht2
        exact absurd ht2 (by simp)
      · rw [if_neg hi] at ht2
        refine ⟨(hs s i).mpr ⟨t2, ht2, hst⟩, ?_⟩
        rintro ⟨h3, _⟩
        exact hi h3
  · intro p i
    rw [mem_byPriority_removeTask]
    constructor
    · rintro ⟨hmem, hnot⟩
      obtain ⟨t2, ht2, hst⟩ := (hp p i).mp hmem
      refine ⟨t2, ?_, hst⟩
      rw [taskOf_removeTask]
      by_cases hi : i = t.id
      · exfalso
        subst hi
        rw [ht] at ht2
        obtain rfl := Option.some.inj ht2
        exact hnot ⟨rfl, hst.symm⟩
      · rw [if_neg hi]
        exact ht2
    · rintro ⟨t2, ht2, hst⟩
      rw [taskOf_removeTask] at ht2
      by_cases hi : i = t.id
      · rw [if_pos hi] at ht2
        exact absurd ht2 (by simp)
      · rw [if_neg hi] at ht2
        refine ⟨(hp p i).mpr ⟨t2, ht2, hst⟩, ?_⟩
        rintro ⟨h3, _⟩
        exact hi h3
  · intro g i
    rw [mem_byTag_removeTask]
    constructor
    · rintro ⟨hmem, hnot⟩
      obtain ⟨t2, ht2, hst⟩ := (hg g i).mp hmem
      refine ⟨t2, ?_, hst⟩
      rw [taskOf_removeTask]
      by_cases hi : i = t.id
      · exfalso
        subst hi
        rw [ht] at ht2
        obtain rfl := Option.some.inj ht2
        exact hnot ⟨rfl, hst⟩
      · rw [if_neg hi]
        exact ht2
    · rintro ⟨t2, ht2, hst⟩
      rw [taskOf_removeTask] at ht2
      by_cases hi : i = t.id
      · rw [if_pos hi] at ht2
        exact absurd ht2 (by simp)
      · rw [if_neg hi] at ht2
        refine ⟨(hg g i).mpr ⟨t2, ht2, hst⟩, ?_⟩
        rintro ⟨h3, _⟩
        exact hi h3
  · exact tagRemoveAll_nonempty hpr
  · intro i t2 ht2
    rw [taskOf_removeTask] at ht2
    by_cases hi : i = t.id
    · rw [if_pos hi] at ht2
      exact absurd ht2 (by simp)
    · rw [if_neg hi] at ht2
      exact hk i t2 ht2

theorem Inv_create (st : RepoState) (d : CreateData) (id : String) (now : Int)
    (h : Inv st) (hf : taskOf st id = none) : Inv (create st d id now).1 :=
  Inv_addTask h (by simpa using hf)

theorem Inv_update (st : RepoState) (id : String) (u : UpdateData) (now : Int)
    (h : Inv st) : Inv (update st id u now).1 := by
  cases hex : taskOf st id with
  | none =>
    rw [show (update st id u now).1 = st by simp [update, hex]]
    exact h
  | some ex =>
    have hid : ex.id = id := h.2.2.2.2 id ex hex
    rw [show (update st id u now).1 =
        addTask (removeTask st ex) (mergeTask ex u id now) by simp [update, hex]]
    have h1 : Inv (removeTask st ex) := Inv_removeTask h (by rw [hid]; exact hex)
    refine Inv_addTask h1 ?_
    have : (mergeTask ex u id now).id = id := rfl
    rw [this, taskOf_removeTask, hid, if_pos rfl]

theorem Inv_delete (st : RepoState) (id : String) (h : Inv st) :
    Inv (deleteTask st id).1 := by
  cases hex : taskOf st id with
  | none =>
    rw [show (deleteTask st id).1 = st by simp [deleteTask, hex]]
    exact h
  | some t =>
    have hid : t.id = id := h.2.2.2.2 id t hex
    rw [show (deleteTask st id).1 = removeTask st t by simp [deleteTask, hex]]
    exact Inv_removeTask h (by rw [hid]; exact hex)

theorem Inv_applyOp (st : RepoState) (op : Op) (h : Inv st)
    (hf : opFresh st op) : Inv (applyOp st op) := by
  cases op with
  | create d id now => exact Inv_create st d id now h hf
  | update id u now => exact Inv_update st id u now h
  | delete id => exact Inv_delete st id h

theorem Inv_applyOps (st : RepoState) (ops : List Op) (h : Inv st)
    (hf : FreshAlong st ops) : Inv (applyOps st ops) := by
  induction ops generalizing st with
  | nil => exact h
  | cons op rest ih => exact ih (applyOp st op) (Inv_applyOp st op h hf.1) hf.2

theorem FreshAlong_of_append (st : RepoState) (pre suf : List Op)
    (h : FreshAlong st (pre ++ suf)) : FreshAlong st pre := by
  induction pre generalizing st with
  | nil => trivial
  | cons op rest ih => exact ⟨h.1, ih (applyOp st op) h.2⟩

theorem Inv_empty : Inv emptyRepo := by
  refine ⟨?_, ?_, ?_, ?_, ?_⟩
  · intro s i
    simp [emptyRepo, taskOf, alookup]
  · intro p i
    simp [emptyRepo, taskOf, alookup]
  · intro g i
    simp [emptyRepo, taskOf, alookup, bucketOf]
  · intro e he
    simp [emptyRepo] at he
  · intro i t ht
    simp [emptyRepo, taskOf, alookup] at ht

theorem BucketsExact_of_Inv {st : RepoState} (h : Inv st) : BucketsExact st :=
  ⟨h.1, h.2.1, h.2.2.1, h.2.2.2.1⟩

/-- A tag bucket that exists is read through `bucketOf`. -/

theorem bucketOf_of_alookup {m : List (String × List String)} {g : String}
    {b : List String} (h : alookup m g = some b) : bucketOf m g = b := by
  simp [bucketOf, h]

theorem exists_taskOf_iff {st : RepoState} {i : String} {t : Task}
    (ht : taskOf st i = some t) (P : Task → Prop) :
    (∃ t2, taskOf st i = some t2 ∧ P t2) ↔ P t := by
  constructor
  · rintro ⟨t2, ht2, hp⟩
    rw [ht] at ht2
    obtain rfl := Option.some.inj ht2
    exact hp
  · intro hp
    exact ⟨t, ht, hp⟩

theorem statusStr_inj (x y : Status) : statusStr x = statusStr y ↔ x = y := by
  cases x <;> cases y <;> decide

theorem priorityStr_inj (x y : Priority) : priorityStr x = priorityStr y ↔ x = y := by
  cases x <;> cases y <;> decide

theorem mem_foldl_setAdd (l acc : List String) (i : String) :
    i ∈ l.foldl setAdd acc ↔ i ∈ acc ∨ i ∈ l := by
  induction l generalizing acc with
  | nil => simp
  | cons x xs ih =>
    simp only [List.foldl_cons, ih, mem_setAdd, List.mem_cons]
    tauto

theorem alookup_isSome_iff {α : Type} (m : List (String × α)) (i : String) :
    (∃ v, alookup m i = some v) ↔ i ∈ m.map Prod.fst := by
  induction m with
  | nil => simp [alookup]
  | cons p rest ih =>
    obtain ⟨k, v⟩ := p
    by_cases h : k = i
    · subst h
      simp [alookup]
    · simp [alookup, if_neg h, ih, show ¬i = k from fun hh => h hh.symm]

theorem mem_keysOf (m : List (String × Task)) (i : String) :
    i ∈ keysOf m ↔ ∃ t, alookup m i = some t := by
  unfold keysOf
  rw [mem_foldl_setAdd]
  simp [alookup_isSome_iff]

theorem mem_intersectSets (a b : List String) (x : String) :
    x ∈ intersectSets a b ↔ x ∈ a ∧ x ∈ b := by
  unfold intersectSets
  by_cases h : a.length ≤ b.length
  · simp [if_pos h, List.mem_filter]
  · simp only [if_neg h, List.mem_filter, decide_eq_true_eq]
    tauto

theorem mem_bucketOf_iff {st : RepoState} (h : Inv st) {i : String} {t : Task}
    (ht : taskOf st i = some t) (g : String) :
    i ∈ bucketOf st.byTag g ↔ g ∈ t.tags := by
  rw [h.2.2.1 g i, exists_taskOf_iff ht]

theorem mem_tagNarrow (st : RepoState) (gs : List String) (ids : List String)
    (x : String) :
    x ∈ tagNarrow st ids gs ↔ x ∈ ids ∧ ∀ g ∈ gs, x ∈ bucketOf st.byTag g := by
  induction gs generalizing ids with
  | nil => simp [tagNarrow]
  | cons g rest ih =>
    cases hb : alookup st.byTag g with
    | none =>
      rw [show tagNarrow st ids (g :: rest) = [] by simp [tagNarrow, hb]]
      simp only [List.not_mem_nil, false_iff]
      rintro ⟨hx, hall⟩
      have h2 := hall g (List.mem_cons_self g rest)
      rw [show bucketOf st.byTag g = [] by simp [bucketOf, hb]] at h2
      exact List.not_mem_nil x h2
    | some b =>
      rw [show tagNarrow st ids (g :: rest) = tagNarrow st (intersectSets ids b) rest by
        simp [tagNarrow, hb]]
      rw [ih, mem_intersectSets]
      constructor
      · rintro ⟨⟨hx, hxb⟩, hrest⟩
        refine ⟨hx, ?_⟩
        intro g2 hg2
        rcases List.mem_cons.mp hg2 with h3 | h3
        · rw [h3, bucketOf_of_alookup hb]
          exact hxb
        · exact hrest g2 h3
      · rintro ⟨hx, hall⟩
        refine ⟨⟨hx, ?_⟩, fun g2 hg2 => hall g2 (List.mem_cons_of_mem _ hg2)⟩
        have h2 := hall g (List.mem_cons_self g rest)
        rw [bucketOf_of_alookup hb] at h2
        exact h2

theorem tagNarrow_missing (st : RepoState) (gs : List String) (ids : List String)
    (h : ∃ g ∈ gs, alookup st.byTag g = none) : tagNarrow st ids gs = [] := by
  induction gs generalizing ids with
  | nil => simp at h
  | cons g rest ih =>
    cases hb : alookup st.byTag g with
    | none => simp [tagNarrow, hb]
    | some b =>
      obtain ⟨g2, hg2, hnone⟩ := h
      rcases List.mem_cons.mp hg2 with h3 | h3
      · rw [h3] at hnone
        rw [hnone] at hb
        exact Option.noConfusion hb
      · rw [show tagNarrow st ids (g :: rest) = tagNarrow st (intersectSets ids b) rest by
          simp [tagNarrow, hb]]
        exact ih _ ⟨g2, h3, hnone⟩

theorem mem_materialize (st : RepoState) (ids : List String) (t : Task) :
    t ∈ materialize st ids ↔ ∃ i ∈ ids, taskOf st i = some t := by
  simp [materialize, List.mem_filterMap]

theorem mem_statusNarrow {st : RepoState} (h : Inv st) (f : Filters)
    (ids : List String) {i : String} {t : Task} (ht : taskOf st i = some t) :
    i ∈ statusNarrow st f ids ↔ i ∈ ids ∧ StatusOK f t := by
  cases hs : f.status with
  | none => simp [statusNarrow, hs, StatusOK, activeStr]
  | some s =>
    by_cases h1 : s = ""
    · subst h1
      simp [statusNarrow, hs, StatusOK, activeStr]
    · rw [show statusNarrow st f ids = intersectSets ids ((statusBucketGet st s).getD []) by
        simp [statusNarrow, hs, h1]]
      rw [mem_intersectSets]
      have hbk : i ∈ (statusBucketGet st s).getD [] ↔ statusStr t.status = s := by
        unfold statusBucketGet
        by_cases e1 : s = "todo"
        · subst e1
          rw [if_pos rfl]
          simp only [Option.getD_some]
          rw [h.1 Status.todo i, exists_taskOf_iff ht,
            show ("todo" : String) = statusStr Status.todo from rfl, statusStr_inj]
        · rw [if_neg e1]
          by_cases e2 : s = "in_progress"
          · subst e2
            rw [if_pos rfl]
            simp only [Option.getD_some]
            rw [h.1 Status.in_progress i, exists_taskOf_iff ht,
              show ("in_progress" : String) = statusStr Status.in_progress from rfl,
              statusStr_inj]
          · rw [if_neg e2]
            by_cases e3 : s = "completed"
            · subst e3
              rw [if_pos rfl]
              simp only [Option.getD_some]
              rw [h.1 Status.completed i, exists_taskOf_iff ht,
                show ("completed" : String) = statusStr Status.completed from rfl,
                statusStr_inj]
            · rw [if_neg e3]
              simp only [Option.getD_none, List.not_mem_nil, false_iff]
              intro hst
              cases hc : t.status
              · rw [hc] at hst
                exact e1 hst.symm
              · rw [hc] at hst
                exact e2 hst.symm
              · rw [hc] at hst
                exact e3 hst.symm
      rw [hbk]
      simp [StatusOK, activeStr, hs, h1]

theorem mem_priorityNarrow {st : RepoState} (h : Inv st) (f : Filters)
    (ids : List String) {i : String} {t : Task} (ht : taskOf st i = some t) :
    i ∈ priorityNarrow st f ids ↔ i ∈ ids ∧ PriorityOK f t := by
  cases hs : f.priority with
  | none => simp [priorityNarrow, hs, PriorityOK, activeStr]
  | some p =>
    by_cases h1 : p = ""
    · subst h1
      simp [priorityNarrow, hs, PriorityOK, activeStr]
    · rw [show priorityNarrow st f ids = intersectSets ids ((priorityBucketGet st p).getD []) by
        simp [priorityNarrow, hs, h1]]
      rw [mem_intersectSets]
      have hbk : i ∈ (priorityBucketGet st p).getD [] ↔ priorityStr t.priority = p := by
        unfold priorityBucketGet
        by_cases e1 : p = "low"
        · subst e1
          rw [if_pos rfl]
          simp only [Option.getD_some]
          rw [h.2.1 Priority.low i, exists_taskOf_iff ht,
            show ("low" : String) = priorityStr Priority.low from rfl, priorityStr_inj]
        · rw [if_neg e1]
          by_cases e2 : p = "medium"
          · subst e2
            rw [if_pos rfl]
            simp only [Option.getD_some]
            rw [h.2.1 Priority.medium i, exists_taskOf_iff ht,
              show ("medium" : String) = priorityStr Priority.medium from rfl,
              priorityStr_inj]
          · rw [if_neg e2]
            by_cases e3 : p = "high"
            · subst e3
              rw [if_pos rfl]
              simp only [Option.getD_some]
              rw [h.2.1 Priority.high i, exists_taskOf_iff ht,
                show ("high" : String) = priorityStr Priority.high from rfl,
                priorityStr_inj]
            · rw [if_neg e3]
              simp only [Option.getD_none, List.not_mem_nil, false_iff]
              intro hst
              cases hc : t.priority
              · rw [hc] at hst
                exact e1 hst.symm
              · rw [hc] at hst
                exact e2 hst.symm
              · rw [hc] at hst
                exact e3 hst.symm
      rw [hbk]
      simp [PriorityOK, activeStr, hs, h1]

theorem mem_tagsNarrowF {st : RepoState} (h : Inv st) (f : Filters)
    (ids : List String) {i : String} {t : Task} (ht : taskOf st i = some t) :
    i ∈ tagsNarrowF st f ids ↔ i ∈ ids ∧ TagsOK f t := by
  cases hts : f.tags with
  | none => simp [tagsNarrowF, hts, TagsOK]
  | some ts =>
    by_cases h1 : ts.length = 0
    · have h2 : ts = [] := List.length_eq_zero.mp h1
      subst h2
      simp [tagsNarrowF, hts, TagsOK]
    · rw [show tagsNarrowF st f ids = tagNarrow st ids ts by simp [tagsNarrowF, hts, h1]]
      rw [mem_tagNarrow]
      simp [TagsOK, hts, mem_bucketOf_iff h ht]

theorem mem_filterStep1 {st : RepoState} (h : Inv st) (f : Filters)
    {i : String} {t : Task} (ht : taskOf st i = some t) :
    i ∈ filterStep1 st f ↔ StatusOK f t ∧ PriorityOK f t ∧ TagsOK f t := by
  unfold filterStep1
  rw [mem_tagsNarrowF h f _ ht, mem_priorityNarrow h f _ ht, mem_statusNarrow h f _ ht,
    mem_keysOf]
  have hex : ∃ t2, alookup st.tasks i = some t2 := ⟨t, ht⟩
  tauto

theorem mem_searchStep (f : Filters) (ts : List Task) (t : Task) :
    t ∈ searchStep f ts ↔ t ∈ ts ∧ SearchOK f t := by
  cases hq : f.search with
  | none => simp [searchStep, hq, SearchOK, activeStr]
  | some q =>
    by_cases h1 : q = ""
    · subst h1
      simp [searchStep, hq, SearchOK, activeStr]
    · simp [searchStep, hq, h1, SearchOK, activeStr, List.mem_filter]

theorem overdueCheck_iff (t : Task) (now : Int) :
    overdueCheck t now = true ↔
      ∃ d, t.dueDate = some d ∧ d < now ∧ t.status ≠ Status.completed := by
  cases hd : t.dueDate <;> simp [overdueCheck, hd]

theorem mem_overdueStep (f : Filters) (now : Int) (ts : List Task) (t : Task) :
    t ∈ overdueStep f now ts ↔ t ∈ ts ∧ OverdueOK f now t := by
  cases hov : f.overdue <;>
    simp [overdueStep, hov, OverdueOK, List.mem_filter, overdueCheck_iff]

theorem mem_insertSorted {α : Type} (c : α → α → Int) (x : α) (l : List α)
    (y : α) : y ∈ insertSorted c x l ↔ y = x ∨ y ∈ l := by
  induction l with
  | nil => simp [insertSorted]
  | cons z zs ih =>
    unfold insertSorted
    by_cases h : c z x ≤ 0
    · rw [if_pos h]
      simp only [List.mem_cons, ih]
      tauto
    · rw [if_neg h]
      simp only [List.mem_cons]

theorem mem_stableSort {α : Type} (c : α → α → Int) (l : List α) (y : α) :
    y ∈ stableSort c l ↔ y ∈ l := by
  unfold stableSort
  suffices h : ∀ acc : List α,
      (y ∈ l.foldl (fun acc x => insertSorted c x acc) acc ↔ y ∈ acc ∨ y ∈ l) by
    simpa using h []
  induction l with
  | nil => simp
  | cons z zs ih =>
    intro acc
    simp only [List.foldl_cons, ih, mem_insertSorted, List.mem_cons]
    tauto

theorem length_insertSorted {α : Type} (c : α → α → Int) (x : α) (l : List α) :
    (insertSorted c x l).length = l.length + 1 := by
  induction l with
  | nil => rfl
  | cons z zs ih =>
    unfold insertSorted
    by_cases h : c z x ≤ 0
    · rw [if_pos h]
      simp [ih]
    · rw [if_neg h]
      simp

theorem length_stableSort {α : Type} (c : α → α → Int) (l : List α) :
    (stableSort c l).length = l.length := by
  unfold stableSort
  suffices h : ∀ acc : List α,
      ((l.foldl (fun acc x => insertSorted c x acc) acc).length = acc.length + l.length) by
    simpa using h []
  induction l with
  | nil =>
    intro acc
    simp
  | cons z zs ih =>
    intro acc
    simp only [List.foldl_cons, ih, length_insertSorted, List.length_cons]
    omega

theorem mem_sortStep (f : Filters) (ts : List Task) (t : Task) :
    t ∈ sortStep f ts ↔ t ∈ ts := by
  unfold sortStep
  cases f.sortBy with
  | none => exact mem_stableSort _ _ _
  | some sb =>
    by_cases h : sb = "" <;> simp [h, mem_stableSort]

theorem length_sortStep (f : Filters) (ts : List Task) :
    (sortStep f ts).length = ts.length := by
  unfold sortStep
  cases f.sortBy with
  | none => exact length_stableSort _ _
  | some sb =>
    by_cases h : sb = "" <;> simp [h, length_stableSort]

theorem mem_findAllSorted {st : RepoState} (h : Inv st) (f : Filters) (now : Int)
    {i : String} {t : Task} (ht : taskOf st i = some t) :
    t ∈ findAllSorted st f now ↔ Satisfies f now t := by
  unfold findAllSorted preSortTasks Satisfies
  rw [mem_sortStep, mem_overdueStep, mem_searchStep, mem_materialize]
  constructor
  · rintro ⟨⟨⟨i2, hi2, hti2⟩, hsearch⟩, hov⟩
    have h3 := (mem_filterStep1 h f hti2).mp hi2
    exact ⟨h3.1, h3.2.1, h3.2.2, hsearch, hov⟩
  · rintro ⟨hs, hp, htg, hq, hov⟩
    exact ⟨⟨⟨i, (mem_filterStep1 h f ht).mpr ⟨hs, hp, htg⟩, ht⟩, hq⟩, hov⟩

theorem getField_unknown {sb : String} (h : sb ∉ sortFields) (t : Task) :
    getField t sb = JVal.nul := by
  simp only [sortFields, List.mem_cons, List.not_mem_nil, or_false, not_or] at h
  obtain ⟨h1, h2, h3, h4, h5, h6, h7, h8, h9⟩ := h
  simp [getField, h1, h2, h3, h4, h5, h6, h7, h8, h9]

theorem cmpTasks_unknown {sb : String} (h : sb ∉ sortFields) (so : String)
    (a b : Task) : cmpTasks sb so a b = 0 := by
  unfold cmpTasks
  rw [getField_unknown h a, getField_unknown h b]

theorem insertSorted_zero {α : Type} {c : α → α → Int} (x : α) (l : List α)
    (h : ∀ a b, c a b = 0) : insertSorted c x l = l ++ [x] := by
  induction l with
  | nil => rfl
  | cons z zs ih =>
    unfold insertSorted
    rw [if_pos (h z x).le, ih]
    rfl

theorem stableSort_zero {α : Type} {c : α → α → Int} (l : List α)
    (h : ∀ a b, c a b = 0) : stableSort c l = l := by
  unfold stableSort
  suffices hs : ∀ acc : List α,
      (l.foldl (fun acc x => insertSorted c x acc) acc = acc ++ l) by
    simpa using hs []
  induction l with
  | nil =>
    intro acc
    simp
  | cons z zs ih =>
    intro acc
    simp only [List.foldl_cons]
    rw [ih, insertSorted_zero z acc h, List.append_assoc]
    rfl

theorem sortStep_unknown {f : Filters} {sb : String} (hsb : f.sortBy = some sb)
    (hne : sb ≠ "") (hunk : sb ∉ sortFields) (ts : List Task) :
    sortStep f ts = ts := by
  unfold sortStep
  rw [hsb]
  simp only [if_neg hne]
  exact stableSort_zero ts (fun a b => cmpTasks_unknown hunk _ a b)

theorem intersectSets_nil_right (a : List String) : intersectSets a [] = [] := by
  by_cases h : a.length ≤ ([] : List String).length <;>
    simp [intersectSets, h]

theorem intersectSets_nil_left (b : List String) : intersectSets [] b = [] := by
  by_cases h : ([] : List String).length ≤ b.length <;>
    simp [intersectSets, h]

theorem tagNarrow_nil (st : RepoState) (gs : List String) :
    tagNarrow st [] gs = [] := by
  induction gs with
  | nil => rfl
  | cons g rest ih =>
    cases hb : alookup st.byTag g with
    | none => simp [tagNarrow, hb]
    | some b =>
      rw [show tagNarrow st [] (g :: rest) = tagNarrow st (intersectSets [] b) rest by
        simp [tagNarrow, hb]]
      rw [intersectSets_nil_left]
      exact ih

theorem priorityNarrow_nil (st : RepoState) (f : Filters) :
    priorityNarrow st f [] = [] := by
  unfold priorityNarrow
  cases f.priority with
  | none => rfl
  | some p =>
    by_cases h : p = "" <;> simp [h, intersectSets_nil_left]

theorem tagsNarrowF_nil (st : RepoState) (f : Filters) :
    tagsNarrowF st f [] = [] := by
  unfold tagsNarrowF
  cases f.tags with
  | none => rfl
  | some ts =>
    by_cases h : ts.length = 0 <;> simp [h, tagNarrow_nil]

theorem searchStep_nil (f : Filters) : searchStep f [] = [] := by
  unfold searchStep
  cases f.search with
  | none => rfl
  | some q =>
    by_cases h : q = "" <;> simp [h]

theorem overdueStep_nil (f : Filters) (now : Int) : overdueStep f now [] = [] := by
  unfold overdueStep
  by_cases h : f.overdue <;> simp [h]

theorem sortStep_nil (f : Filters) : sortStep f [] = [] := by
  unfold sortStep
  cases f.sortBy with
  | none => rfl
  | some sb =>
    by_cases h : sb = "" <;> simp [h, stableSort]

theorem findAllSorted_invalid_status {st : RepoState} {f : Filters} {now : Int}
    {s : String} (hs : f.status = some s) (h1 : s ≠ "") (h2 : s ≠ "todo")
    (h3 : s ≠ "in_progress") (h4 : s ≠ "completed") :
    findAllSorted st f now = [] := by
  have hb : statusBucketGet st s = none := by
    simp [statusBucketGet, h2, h3, h4]
  have hids : statusNarrow st f (keysOf st.tasks) = [] := by
    simp [statusNarrow, hs, h1, hb, intersectSets_nil_right]
  unfold findAllSorted preSortTasks filterStep1
  rw [hids, priorityNarrow_nil, tagsNarrowF_nil]
  rw [show materialize st [] = [] from rfl, searchStep_nil, overdueStep_nil,
    sortStep_nil]

theorem findAllSorted_invalid_priority {st : RepoState} {f : Filters} {now : Int}
    {p : String} (hp : f.priority = some p) (h1 : p ≠ "") (h2 : p ≠ "low")
    (h3 : p ≠ "medium") (h4 : p ≠ "high") :
    findAllSorted st f now = [] := by
  have hb : priorityBucketGet st p = none := by
    simp [priorityBucketGet, h2, h3, h4]
  have hids : priorityNarrow st f (statusNarrow st f (keysOf st.tasks)) = [] := by
    simp [priorityNarrow, hp, h1, hb, intersectSets_nil_right]
  unfold findAllSorted preSortTasks filterStep1
  rw [hids, tagsNarrowF_nil]
  rw [show materialize st [] = [] from rfl, searchStep_nil, overdueStep_nil,
    sortStep_nil]

theorem jsSlice_nil (s e : Int) : jsSlice [] s e = [] := by
  simp [jsSlice]

theorem length_jsSlice_small (l : List Task) (h : (l.length : Int) ≤ 50) :
    (jsSlice l 0 50).length = l.length := by
  have h0 : ¬((0 : Int) < 0) := by omega
  have h50 : ¬((50 : Int) < 0) := by omega
  have hmin0 : min (0 : Int) (l.length : Int) = 0 := by omega
  have hmin50 : min (50 : Int) (l.length : Int) = (l.length : Int) := by omega
  simp only [jsSlice, if_neg h0, if_neg h50, hmin0, hmin50]
  simp

theorem statsLoop_snd (now off : Int) (l : List (String × Task)) (ov ct : Nat) :
    (statsLoop now off l ov ct).2 =
      ct + (l.filter (fun p => completedTodayCheck off now p.2)).length := by
  induction l generalizing ov ct with
  | nil => simp [statsLoop]
  | cons p rest ih =>
    obtain ⟨k, t⟩ := p
    unfold statsLoop
    by_cases h : completedTodayCheck off now t
    · simp only [List.filter_cons, h, if_true, ih, List.length_cons]
      omega
    · simp only [List.filter_cons, h, if_false, ih, Bool.false_eq_true]

theorem getStats_completedToday (st : RepoState) (now off : Int) :
    (getStats st now off).completedToday =
      (st.tasks.filter (fun p => completedTodayCheck off now p.2)).length := by
  unfold getStats
  simp [statsLoop_snd]

theorem length_filter_map_snd {α β : Type} (l : List (α × β)) (p : β → Bool) :
    ((l.map Prod.snd).filter p).length = (l.filter (fun x => p x.2)).length := by
  rw [List.filter_map]
  simp only [List.length_map]
  rfl

namespace AliasModel

/-- C2: the record create returns is a shallow spread, so its tags array
is the very array stored in the repository: mutating the returned
record's tags (push "b") changes what every subsequent findById reads,
from ["a"] to ["a", "b"] — the claimed deep-copy isolation fails. -/
theorem create_returns_aliased_tags :
    ((alookup c2st1.tasks "id1").map TaskObj.tags = some c2ret.tags) ∧
    ((findByIdA c2st1 "id1").map (fun t => readArr c2st1.heap t.tags) = some ["a"]) ∧
    ((findByIdA c2st2 "id1").map (fun t => readArr c2st2.heap t.tags) = some ["a", "b"]) := by
  decide

end AliasModel

theorem Inv_stA : Inv stA :=
  Inv_create emptyRepo dA "a" 10 Inv_empty rfl

theorem Inv_stAB : Inv stAB :=
  Inv_create stA dB "b" 20 Inv_stA (by decide)

/-- C1: for every sequence of create/update/delete operations whose
status, priority and tag fields are valid (validity is enforced by the
enum types of the model) and whose generated ids are fresh, after each
operation every status, priority and tag bucket holds exactly the ids of
the live records carrying that value — hence no bucket holds the id of a
deleted or non-existent record — and every tag bucket that becomes empty
is removed from the tag index. -/

theorem index_buckets_exact_after_ops (st : RepoState) (ops : List Op)
    (h : Inv st) (hf : FreshAlong st ops) (pre suf : List Op)
    (hsplit : ops = pre ++ suf) :
    BucketsExact (applyOps st pre) := by
  subst hsplit
  exact BucketsExact_of_Inv
    (Inv_applyOps st pre h (FreshAlong_of_append st pre suf hf))

/-- Witness for C1 at a concrete trace from the empty store. -/

theorem index_buckets_exact_after_ops_witness :
    BucketsExact (applyOps emptyRepo opsEx) :=
  index_buckets_exact_after_ops emptyRepo opsEx Inv_empty
    ⟨rfl, (by decide : taskOf (applyOp emptyRepo (Op.create dA "a" 10)) "b" = none),
      trivial, trivial, trivial⟩ opsEx [] rfl

/-- C3: update on an unknown id returns the null sentinel and leaves the
store unchanged; on a present id it returns the spread-merged record:
every field absent from the update payload keeps its stored value,
present fields take the new value, id and createdAt keep their stored
values even when the payload carries them, and updatedAt is the time of
the update. -/

theorem update_merge_spec (st : RepoState) (id : String) (u : UpdateData)
    (now : Int) (hInv : Inv st) :
    (taskOf st id = none → update st id u now = (st, none)) ∧
    (∀ ex, taskOf st id = some ex →
      ∃ m, (update st id u now).2 = some m ∧
        m.id = ex.id ∧ m.createdAt = ex.createdAt ∧ m.updatedAt = now ∧
        (u.title = none → m.title = ex.title) ∧
        (∀ v, u.title = some v → m.title = v) ∧
        (u.description = none → m.description = ex.description) ∧
        (∀ v, u.description = some v → m.description = v) ∧
        (u.status = none → m.status = ex.status) ∧
        (∀ v, u.status = some v → m.status = v) ∧
        (u.priority = none → m.priority = ex.priority) ∧
        (∀ v, u.priority = some v → m.priority = v) ∧
        (u.dueDate = none → m.dueDate = ex.dueDate) ∧
        (∀ v, u.dueDate = some v → m.dueDate = v) ∧
        (u.tags = none → m.tags = ex.tags) ∧
        (∀ v, u.tags = some v → m.tags = v)) := by
  constructor
  · intro h
    simp [update, h]
  · intro ex hex
    refine ⟨mergeTask ex u id now, by simp [update, hex],
      (hInv.2.2.2.2 id ex hex).symm, rfl, rfl,
      ?_, ?_, ?_, ?_, ?_, ?_, ?_, ?_, ?_, ?_, ?_, ?_⟩
    · intro hc
      simp [mergeTask, hc]
    · intro v hc
      simp [mergeTask, hc]
    · intro hc
      simp [mergeTask, hc]
    · intro v hc
      simp [mergeTask, hc]
    · intro hc
      simp [mergeTask, hc]
    · intro v hc
      simp [mergeTask, hc]
    · intro hc
      simp [mergeTask, hc]
    · intro v hc
      simp [mergeTask, hc]
    · intro hc
      simp [mergeTask, hc]
    · intro v hc
      simp [mergeTask, hc]
    · intro hc
      simp [mergeTask, hc]
    · intro v hc
      simp [mergeTask, hc]

/-- Witness for C3: both branches at concrete inputs. -/

theorem update_merge_spec_witness :
    (update stA "zz" uEx 50 = (stA, none)) ∧
    (∃ m, (update stA "a" uEx 50).2 = some m ∧
      m.id = (mkTask dA "a" 10).id ∧ m.createdAt = (mkTask dA "a" 10).createdAt ∧
      m.updatedAt = 50 ∧
      (uEx.title = none → m.title = (mkTask dA "a" 10).title) ∧
      (∀ v, uEx.title = some v → m.title = v) ∧
      (uEx.description = none → m.description = (mkTask dA "a" 10).description) ∧
      (∀ v, uEx.description = some v → m.description = v) ∧
      (uEx.status = none → m.status = (mkTask dA "a" 10).status) ∧
      (∀ v, uEx.status = some v → m.status = v) ∧
      (uEx.priority = none → m.priority = (mkTask dA "a" 10).priority) ∧
      (∀ v, uEx.priority = some v → m.priority = v) ∧
      (uEx.dueDate = none → m.dueDate = (mkTask dA "a" 10).dueDate) ∧
      (∀ v, uEx.dueDate = some v → m.dueDate = v) ∧
      (uEx.tags = none → m.tags = (mkTask dA "a" 10).tags) ∧
      (∀ v, uEx.tags = some v → m.tags = v)) :=
  ⟨(update_merge_spec stA "zz" uEx 50 Inv_stA).1 (by decide),
   (update_merge_spec stA "a" uEx 50 Inv_stA).2 (mkTask dA "a" 10) (by decide)⟩

/-- C4: a stored record is in the filtered set findAll paginates over
(the set whose size is pagination.total) exactly when it satisfies every
predicate of the filter: active status/priority equality, all requested
tags, case-insensitive substring search on title or description, and the
overdue predicate (dueDate set, earlier than now, status not completed). -/

theorem findAll_filter_iff (st : RepoState) (f : Filters) (now : Int)
    (h : Inv st) (i : String) (t : Task) (ht : taskOf st i = some t) :
    (t ∈ findAllSorted st f now ↔ Satisfies f now t) ∧
    (findAll st f now).pagination.total = ((findAllSorted st f now).length : Int) :=
  ⟨mem_findAllSorted h f now ht, rfl⟩

/-- Witness for C4 at a concrete store, filter and record. -/

theorem findAll_filter_iff_witness :
    ((mkTask dA "a" 10) ∈ findAllSorted stAB fEx 30 ↔ Satisfies fEx 30 (mkTask dA "a" 10)) ∧
    (findAll stAB fEx 30).pagination.total = ((findAllSorted stAB fEx 30).length : Int) :=
  findAll_filter_iff stAB fEx 30 Inv_stAB "a" (mkTask dA "a" 10) (by decide)

/-- C5: the filtered set of a multi-tag query holds exactly the records
carrying every requested tag (logical AND), and is empty whenever some
requested tag has no bucket in the tag index. -/

theorem findAll_tags_and_semantics (st : RepoState) (h : Inv st)
    (ts : List String) (now : Int) :
    (∀ i t, taskOf st i = some t →
      (t ∈ findAllSorted st (tagFilter ts) now ↔ ∀ g ∈ ts, g ∈ t.tags)) ∧
    ((∃ g ∈ ts, alookup st.byTag g = none) →
      findAllSorted st (tagFilter ts) now = []) := by
  constructor
  · intro i t ht
    rw [mem_findAllSorted h (tagFilter ts) now ht]
    unfold Satisfies StatusOK PriorityOK TagsOK SearchOK OverdueOK tagFilter
    simp [noFilters, activeStr]
  · intro hmiss
    by_cases hlen : ts.length = 0
    · obtain ⟨g, hg, _⟩ := hmiss
      rw [List.length_eq_zero.mp hlen] at hg
      exact absurd hg (List.not_mem_nil g)
    · have hids : filterStep1 st (tagFilter ts) = [] := by
        unfold filterStep1
        have h1 : statusNarrow st (tagFilter ts) (keysOf st.tasks) = keysOf st.tasks := by
          simp [statusNarrow, tagFilter, noFilters]
        have h2 : priorityNarrow st (tagFilter ts) (keysOf st.tasks) = keysOf st.tasks := by
          simp [priorityNarrow, tagFilter, noFilters]
        rw [h1, h2]
        rw [show tagsNarrowF st (tagFilter ts) (keysOf st.tasks) =
            tagNarrow st (keysOf st.tasks) ts by simp [tagsNarrowF, tagFilter, hlen]]
        exact tagNarrow_missing st ts _ hmiss
      unfold findAllSorted preSortTasks
      rw [hids, show materialize st [] = [] from rfl, searchStep_nil,
        overdueStep_nil, sortStep_nil]

/-- Witness for C5 at a concrete store: both conjuncts applied. -/

theorem findAll_tags_and_semantics_witness :
    ((mkTask dA "a" 10) ∈ findAllSorted stAB (tagFilter ["x", "y"]) 30 ↔
      ∀ g ∈ ["x", "y"], g ∈ (mkTask dA "a" 10).tags) ∧
    findAllSorted stAB (tagFilter ["x", "zz"]) 30 = [] :=
  ⟨(findAll_tags_and_semantics stAB Inv_stAB ["x", "y"] 30).1 "a"
      (mkTask dA "a" 10) (by decide),
   (findAll_tags_and_semantics stAB Inv_stAB ["x", "zz"] 30).2 (by decide)⟩

/-- C6 counterexample: with a one-record store and requested limit -5,
the effective limit is -5 — outside the claimed clamp range [1, 100] —
the returned page is empty and hasMore is true, whereas the claim
(limit clamped to 1) requires a one-record page and hasMore false. -/

theorem pagination_clamp_counterexample :
    (findAll stA fNegLimit 30).pagination.limit = -5 ∧
    ¬(1 ≤ (findAll stA fNegLimit 30).pagination.limit ∧
      (findAll stA fNegLimit 30).pagination.limit ≤ 100) ∧
    (findAll stA fNegLimit 30).pagination.total = 1 ∧
    (findAll stA fNegLimit 30).tasks = [] ∧
    (findAll stA fNegLimit 30).pagination.hasMore = true := by
  decide

/-- C6 amended: the effective limit is the requested limit capped above
at 100, with 0, NaN or absent mapping to 50 and negative values passed
through unclamped; the effective offset is the requested offset clamped
to at least 0 (0 when absent); the page is the JS slice
[offset, offset+limit) of the filtered sorted set (a negative end index
counts from the end); total is the filtered size before pagination and
hasMore = offset + limit < total, computed with the unclamped limit. -/

theorem pagination_effective_values (st : RepoState) (f : Filters) (now : Int) :
    (findAll st f now).pagination.limit =
      (match f.limit with | none => 50 | some v => if v = 0 then 50 else min v 100) ∧
    (findAll st f now).pagination.offset =
      (match f.offset with | none => 0 | some v => max v 0) ∧
    (findAll st f now).pagination.total = ((findAllSorted st f now).length : Int) ∧
    (findAll st f now).pagination.hasMore =
      decide ((findAll st f now).pagination.offset + (findAll st f now).pagination.limit <
        (findAll st f now).pagination.total) ∧
    (findAll st f now).tasks =
      jsSlice (findAllSorted st f now) ((findAll st f now).pagination.offset)
        ((findAll st f now).pagination.offset + (findAll st f now).pagination.limit) :=
  ⟨rfl, rfl, rfl, rfl, rfl⟩

/-- C7 counterexample: with two records created at times 10 and 20, an
unknown sortBy returns them in map (insertion) order while the default
sort returns updatedAt-descending order; the two orderings differ, so an
unknown sortBy does not fall back to the default ordering. -/

theorem unknown_sortBy_counterexample :
    (findAll stAB fBogusSort 30).tasks = [mkTask dA "a" 10, mkTask dB "b" 20] ∧
    (findAll stAB noFilters 30).tasks = [mkTask dB "b" 20, mkTask dA "a" 10] ∧
    (findAll stAB fBogusSort 30).tasks ≠ (findAll stAB noFilters 30).tasks := by
  decide

/-- C7 amended: an unknown or invalid sortBy does not fail; every
comparison returns 0, so the stable sort leaves the filtered records in
their pre-sort (index materialisation) order — which in general differs
from the default updatedAt-descending ordering. -/

theorem unknown_sortBy_keeps_presort_order (st : RepoState) (f : Filters)
    (now : Int) (sb : String) (hsb : f.sortBy = some sb) (hne : sb ≠ "")
    (hunk : sb ∉ sortFields) :
    findAllSorted st f now = preSortTasks st f now := by
  unfold findAllSorted
  exact sortStep_unknown hsb hne hunk _

/-- Witness for the amended C7. -/

theorem unknown_sortBy_keeps_presort_order_witness :
    findAllSorted stAB fBogusSort 30 = preSortTasks stAB fBogusSort 30 :=
  unknown_sortBy_keeps_presort_order stAB fBogusSort 30 "bogus" rfl
    (by decide) (by decide)

/-- C8 counterexample: a record completed at 01:00 UTC, with stats taken
at 23:00 UTC the same UTC day in a UTC+2 process: getStats counts by the
process-local day (toDateString) and reports 0, while the number of
completed records with updatedAt on the current UTC day is 1. -/

theorem completedToday_counterexample :
    (getStats stC 82800000 7200000).completedToday ≠
      ((stC.tasks.map Prod.snd).filter (fun t =>
        decide (t.status = Status.completed) &&
        decide (utcDay t.updatedAt = utcDay 82800000))).length := by
  decide

/-- C8 amended: completedToday counts the live completed records whose
updatedAt falls on the same calendar day as now in the process's local
time zone (the zone offset getStats reads from its environment, an
explicit parameter here); with offset 0 this is the UTC day, but the
value depends on the offset rather than being UTC-determined. -/

theorem completedToday_local_day (st : RepoState) (now off : Int) :
    (getStats st now off).completedToday =
      ((st.tasks.map Prod.snd).filter (fun t => completedTodayCheck off now t)).length := by
  rw [getStats_completedToday, length_filter_map_snd]

/-- From an empty filtered set, findAll returns an empty page, zero
total, and hasMore = offset + limit < 0. -/

theorem findAll_sorted_nil {st : RepoState} {f : Filters} {now : Int}
    (h : findAllSorted st f now = []) :
    (findAll st f now).tasks = [] ∧
    (findAll st f now).pagination.total = 0 ∧
    (findAll st f now).pagination.hasMore =
      decide ((findAll st f now).pagination.offset +
        (findAll st f now).pagination.limit < 0) := by
  unfold findAll
  simp only [h, jsSlice_nil, List.length_nil, Int.natCast_zero]
  exact ⟨trivial, trivial, trivial⟩

/-- C10 amended: a status or priority filter value with no bucket (any
truthy string outside the enums) is replaced by the empty set, so the
result is an empty page with total 0 and no failure; hasMore evaluates
to offset + limit < 0, which is false for every nonnegative effective
limit but true when a negative limit was requested. -/

theorem missing_bucket_empty_result (st : RepoState) (f : Filters) (now : Int) :
    (∀ s, f.status = some s → s ≠ "" → s ≠ "todo" → s ≠ "in_progress" →
      s ≠ "completed" →
      (findAll st f now).tasks = [] ∧
      (findAll st f now).pagination.total = 0 ∧
      (findAll st f now).pagination.hasMore =
        decide ((findAll st f now).pagination.offset +
          (findAll st f now).pagination.limit < 0)) ∧
    (∀ p, f.priority = some p → p ≠ "" → p ≠ "low" → p ≠ "medium" → p ≠ "high" →
      (findAll st f now).tasks = [] ∧
      (findAll st f now).pagination.total = 0 ∧
      (findAll st f now).pagination.hasMore =
        decide ((findAll st f now).pagination.offset +
          (findAll st f now).pagination.limit < 0)) := by
  constructor
  · intro s hs h1 h2 h3 h4
    exact findAll_sorted_nil (findAllSorted_invalid_status hs h1 h2 h3 h4)
  · intro p hp h1 h2 h3 h4
    exact findAll_sorted_nil (findAllSorted_invalid_priority hp h1 h2 h3 h4)

/-- C10 counterexample: an unknown status bucket yields an empty page
with total 0 as claimed, but with a negative requested limit
hasMore = offset + limit < total is true, not false. -/

theorem missing_bucket_hasMore_counterexample :
    (findAll stA fBogusStatus 30).tasks = [] ∧
    (findAll stA fBogusStatus 30).pagination.total = 0 ∧
    (findAll stA fBogusStatus 30).pagination.hasMore = true := by
  decide

/-- Witness for the amended C10. -/

theorem missing_bucket_empty_result_witness :
    (findAll stA fBogusStatus 30).tasks = [] ∧
    (findAll stA fBogusStatus 30).pagination.total = 0 ∧
    (findAll stA fBogusStatus 30).pagination.hasMore =
      decide ((findAll stA fBogusStatus 30).pagination.offset +
        (findAll stA fBogusStatus 30).pagination.limit < 0) :=
  (missing_bucket_empty_result stA fBogusStatus 30).1 "bogus" rfl
    (by decide) (by decide) (by decide) (by decide)

/-- C9: a freshly constructed repository is pre-seeded with the three
sample records (one completed, one in_progress, one todo, each carrying
two tags), so before any create getStats().total is 3, each status
bucket counts one record, and an unfiltered findAll returns three
records — a fresh store is not empty.  The uuid-generated ids appear as
three parameters assumed distinct. -/

theorem fresh_repo_seeded (now : Int) (id1 id2 id3 : String) (off : Int)
    (h12 : id1 ≠ id2) (h13 : id1 ≠ id3) (h23 : id2 ≠ id3) :
    (getStats (freshRepo now id1 id2 id3) now off).total = 3 ∧
    (getStats (freshRepo now id1 id2 id3) now off).statusTodo = 1 ∧
    (getStats (freshRepo now id1 id2 id3) now off).statusInProgress = 1 ∧
    (getStats (freshRepo now id1 id2 id3) now off).statusCompleted = 1 ∧
    (findAll (freshRepo now id1 id2 id3) noFilters now).pagination.total = 3 ∧
    (findAll (freshRepo now id1 id2 id3) noFilters now).tasks.length = 3 ∧
    (sampleTask1 now id1).tags.length = 2 ∧
    (sampleTask2 now id2).tags.length = 2 ∧
    (sampleTask3 now id3).tags.length = 2 := by
  have htasks : (freshRepo now id1 id2 id3).tasks =
      [(id1, sampleTask1 now id1), (id2, sampleTask2 now id2),
       (id3, sampleTask3 now id3)] := by
    simp [freshRepo, addTask, emptyRepo, aset, sampleTask1, sampleTask2,
      sampleTask3, h12, h13, h23]
  have hkeys : keysOf (freshRepo now id1 id2 id3).tasks = [id1, id2, id3] := by
    rw [htasks]
    simp [keysOf, setAdd, Ne.symm h12, Ne.symm h13, Ne.symm h23]
  have hmat : materialize (freshRepo now id1 id2 id3) [id1, id2, id3] =
      [sampleTask1 now id1, sampleTask2 now id2, sampleTask3 now id3] := by
    simp [materialize, taskOf, htasks, alookup, h12, h13, h23,
      Ne.symm h12, Ne.symm h13, Ne.symm h23]
  have hpre : preSortTasks (freshRepo now id1 id2 id3) noFilters now =
      [sampleTask1 now id1, sampleTask2 now id2, sampleTask3 now id3] := by
    unfold preSortTasks
    rw [show filterStep1 (freshRepo now id1 id2 id3) noFilters =
        keysOf (freshRepo now id1 id2 id3).tasks from rfl]
    rw [hkeys]
    rw [show searchStep noFilters
        (materialize (freshRepo now id1 id2 id3) [id1, id2, id3]) =
        materialize (freshRepo now id1 id2 id3) [id1, id2, id3] from rfl]
    rw [show overdueStep noFilters now
        (materialize (freshRepo now id1 id2 id3) [id1, id2, id3]) =
        materialize (freshRepo now id1 id2 id3) [id1, id2, id3] from rfl]
    exact hmat
  have hsortedlen :
      (findAllSorted (freshRepo now id1 id2 id3) noFilters now).length = 3 := by
    unfold findAllSorted
    rw [length_sortStep, hpre]
    rfl
  have hbs1 : (freshRepo now id1 id2 id3).byStatus Status.todo = [id3] := by
    simp [freshRepo, addTask, emptyRepo, sampleTask1, sampleTask2, sampleTask3,
      setAdd]
  have hbs2 : (freshRepo now id1 id2 id3).byStatus Status.in_progress = [id2] := by
    simp [freshRepo, addTask, emptyRepo, sampleTask1, sampleTask2, sampleTask3,
      setAdd]
  have hbs3 : (freshRepo now id1 id2 id3).byStatus Status.completed = [id1] := by
    simp [freshRepo, addTask, emptyRepo, sampleTask1, sampleTask2, sampleTask3,
      setAdd]
  refine ⟨?_, ?_, ?_, ?_, ?_, ?_, rfl, rfl, rfl⟩
  · show (freshRepo now id1 id2 id3).tasks.length = 3
    rw [htasks]
    rfl
  · show ((freshRepo now id1 id2 id3).byStatus Status.todo).length = 1
    rw [hbs1]
    rfl
  · show ((freshRepo now id1 id2 id3).byStatus Status.in_progress).length = 1
    rw [hbs2]
    rfl
  · show ((freshRepo now id1 id2 id3).byStatus Status.completed).length = 1
    rw [hbs3]
    rfl
  · show ((findAllSorted (freshRepo now id1 id2 id3) noFilters now).length : Int) = 3
    rw [hsortedlen]
    rfl
  · show (jsSlice (findAllSorted (freshRepo now id1 id2 id3) noFilters now)
      0 (0 + 50)).length = 3
    rw [show ((0 : Int) + 50) = 50 from rfl]
    rw [length_jsSlice_small _ (by rw [hsortedlen]; omega)]
    exact hsortedlen

/-- Witness for C9 at concrete distinct ids. -/

theorem fresh_repo_seeded_witness :
    (getStats (freshRepo 1000000000 "s1" "s2" "s3") 1000000000 0).total = 3 ∧
    (getStats (freshRepo 1000000000 "s1" "s2" "s3") 1000000000 0).statusTodo = 1 ∧
    (getStats (freshRepo 1000000000 "s1" "s2" "s3") 1000000000 0).statusInProgress = 1 ∧
    (getStats (freshRepo 1000000000 "s1" "s2" "s3") 1000000000 0).statusCompleted = 1 ∧
    (findAll (freshRepo 1000000000 "s1" "s2" "s3") noFilters 1000000000).pagination.total = 3 ∧
    (findAll (freshRepo 1000000000 "s1" "s2" "s3") noFilters 1000000000).tasks.length = 3 ∧
    (sampleTask1 1000000000 "s1").tags.length = 2 ∧
    (sampleTask2 1000000000 "s2").tags.length = 2 ∧
    (sampleTask3 1000000000 "s3").tags.length = 2 :=
  fresh_repo_seeded 1000000000 "s1" "s2" "s3" 0 (by decide) (by decide) (by decide)

end TaskRepo
